import Mathlib

/-!
# rdsosmetrics_exporter: discovery and collection of RDS OS metrics

A shallow embedding of `rdsosmetrics_exporter.go`.

* A decoded JSON message (`interface{}` filled by `json.Unmarshal`) is a `JVal`.
  A Go map is an association list; the order of the list is the order in which
  a `range` loop happens to visit the map.
* `e.desc` (a `map[string]*prometheus.Desc`) is an association list from the
  fully qualified name to the descriptor; a missing key reads as `none`, which
  is the nil pointer the Go lookup yields.
* A channel is the list of values sent on it, oldest first.
* The AWS calls are inputs: a region comes with the outcome of
  `DescribeLogStreams`, a stream with the outcome of `GetLogEvents`, an event
  with the outcome of `json.Unmarshal` on its message.
* A panic or `log.Fatalln` ends a run: `Outcome.failed` keeps the state in
  which the run stopped.
-/

namespace RdsOsMetrics

/-! ## Data model -/

/-- A Go `float64`, kept as its IEEE-754 bit pattern; the exporter only moves
these values around and never computes with them. -/
structure Float64 where
  bits : Nat
deriving DecidableEq, Repr

/-- What `json.Unmarshal` stores into an `interface{}`: nil, bool, float64,
string, `[]interface{}` or `map[string]interface{}`. -/
inductive JVal where
  | null
  | bool (b : Bool)
  | num (x : Float64)
  | str (s : String)
  | arr (xs : List JVal)
  | obj (kvs : List (String × JVal))

/-- The constant `namespace` of the source (line 20). -/
def namespace_ : String := "rdsosmetrics"

/-- The constant `logGroupName` of the source (line 21). -/
def logGroupName : String := "RDSOSMetrics"

/-- The errors `prometheus.NewDesc` records in the descriptor it returns. -/
inductive DescError where
  | invalidMetricName
  | invalidLabelName
  | duplicateLabelNames
deriving DecidableEq, Repr

/-- The descriptor built by `prometheus.NewDesc`: the arguments it was given
and the error found while checking them, if any. -/
structure Desc where
  fqName : String
  help : String
  variableLabels : List String
  constLabels : List (String × String)
  err : Option DescError
deriving DecidableEq, Repr

/-- One character of a metric name, as `model.IsValidMetricName` tests it: a
letter of `a-z` or `A-Z`, `_`, `:`, or a digit when it is not the first. -/
def isMetricNameRune (i : Nat) (b : Char) : Bool :=
  (97 ≤ b.toNat && b.toNat ≤ 122) || (65 ≤ b.toNat && b.toNat ≤ 90) || b == '_' || b == ':' ||
    (48 ≤ b.toNat && b.toNat ≤ 57 && 0 < i)

/-- The function `model.IsValidMetricName` of the client library: the name is
not empty and every character passes `isMetricNameRune`. -/
def IsValidMetricName (n : String) : Bool :=
  !n.data.isEmpty && n.data.enum.all fun ib => isMetricNameRune ib.1 ib.2

/-- One character of a label name, as `model.LabelName.IsValid` tests it. -/
def isLabelNameRune (i : Nat) (b : Char) : Bool :=
  (97 ≤ b.toNat && b.toNat ≤ 122) || (65 ≤ b.toNat && b.toNat ≤ 90) || b == '_' ||
    (48 ≤ b.toNat && b.toNat ≤ 57 && 0 < i)

/-- The function `checkLabelName` of the client library: a valid label name
that does not start with the reserved `__`. -/
def checkLabelName (l : String) : Bool :=
  !l.data.isEmpty && (l.data.enum.all fun ib => isLabelNameRune ib.1 ib.2) &&
    !("__".data.isPrefixOf l.data)

/-- Constructor `prometheus.NewDesc(fqName, help, variableLabels, constLabels)`;
it never returns nil. It records an error for a metric name or a label name
that is not valid and for a label name given twice. -/
def NewDesc (fqName help : String) (variableLabels : List String)
    (constLabels : List (String × String)) : Desc :=
  { fqName := fqName, help := help, variableLabels := variableLabels,
    constLabels := constLabels,
    err :=
      if !IsValidMetricName fqName then some DescError.invalidMetricName
      else if !(constLabels.all fun kv => checkLabelName kv.1) then
        some DescError.invalidLabelName
      else if !(variableLabels.all checkLabelName) then some DescError.invalidLabelName
      else if ¬ (constLabels.map Prod.fst ++ variableLabels).Nodup then
        some DescError.duplicateLabelNames
      else none }

/-- The value types of the client library. -/
inductive ValueType where
  | CounterValue
  | GaugeValue
  | UntypedValue
deriving DecidableEq, Repr

/-- The constant metric built by `prometheus.MustNewConstMetric`. -/
structure Metric where
  desc : Desc
  valType : ValueType
  val : Float64
  labelValues : List String
deriving DecidableEq, Repr

/-- The ways a run of the exporter stops early. -/
inductive Failure where
  | fatal
  | indexOutOfRange
  | nilDereference
  | typeAssertion
  | inconsistentCardinality
  | invalidDescriptor
deriving DecidableEq, Repr

/-- The outcome of running a piece of the program from some state: it ran to
its end, or it was stopped by a panic or a fatal log in the state given. -/
inductive Outcome (σ : Type) where
  | done (s : σ)
  | failed (f : Failure) (s : σ)
deriving DecidableEq, Repr

/-- The state in which the run ended. -/
def Outcome.state {σ : Type} : Outcome σ → σ
  | .done s => s
  | .failed _ s => s

/-- The failure that stopped the run, if any. -/
def Outcome.failure {σ : Type} : Outcome σ → Option Failure
  | .done _ => none
  | .failed f _ => some f

/-- A `for ... range` loop whose body may stop the run: the body is run on the
elements in order, and nothing runs after a failure. -/
def forEach {α σ : Type} (body : σ → α → Outcome σ) : List α → σ → Outcome σ
  | [], s => .done s
  | a :: rest, s =>
    match body s a with
    | .done s' => forEach body rest s'
    | .failed f s' => .failed f s'

/-! ## Library functions used by the exporter -/

/-- The function `prometheus.BuildFQName` of the client library: the three
components joined by `_`, empty components left out, and the empty string
whenever `name` is empty. -/
def BuildFQName (ns subsystem name : String) : String :=
  if name = "" then ""
  else if ns ≠ "" ∧ subsystem ≠ "" then String.intercalate "_" [ns, subsystem, name]
  else if ns ≠ "" then String.intercalate "_" [ns, name]
  else if subsystem ≠ "" then String.intercalate "_" [subsystem, name]
  else name

/-- Go `strings.ToLower`, character by character. Letters outside ASCII are
left as they are here, while Go maps them through its Unicode tables; on ASCII
strings the two agree. The general theorems use of it only that it works
character by character and makes no `_` and no empty string out of anything
else. -/
def ToLower (s : String) : String :=
  String.mk (s.data.map Char.toLower)

/-- Go `strconv.Itoa` on a slice index (never negative). -/
def Itoa (i : Nat) : String :=
  Nat.repr i

/-- The function `prometheus.MustNewConstMetric`: it reads the descriptor
behind the pointer (a nil pointer panics), panics with the error recorded in
the descriptor when there is one, and panics when the number of label values
differs from the number of variable labels. -/
def MustNewConstMetric (desc : Option Desc) (valueType : ValueType) (value : Float64)
    (labelValues : List String) : Except Failure Metric :=
  match desc with
  | none => .error .nilDereference
  | some d =>
    match d.err with
    | some _ => .error .invalidDescriptor
    | none =>
      if d.variableLabels.length ≠ labelValues.length then .error .inconsistentCardinality
      else .ok { desc := d, valType := valueType, val := value, labelValues := labelValues }

/-! ## The exporter -/

/-- The struct `Exporter` (line 24). -/
structure Exporter where
  desc : List (String × Desc)
deriving DecidableEq, Repr

/-- The function `NewExporter` (line 28): an empty map. -/
def NewExporter : Exporter :=
  { desc := [] }

/-- The exporter together with the channel a pass writes to. -/
structure St (χ : Type) where
  e : Exporter
  ch : List χ
deriving DecidableEq, Repr

/-- The help text given to every descriptor (line 106). -/
def helpText : String :=
  "Authomatially parsed metric from " ++ logGroupName ++ " Log Group"

/-- Method `addDesc` (lines 101-114). -/
def addDesc (e : Exporter) (subsystem name : String) : Exporter :=
  let FQName := BuildFQName namespace_ subsystem name
  match e.desc.lookup FQName with
  | some _ => e
  | none =>
    { desc := (FQName, NewDesc (ToLower FQName) helpText ["region", "instanceID"] []) :: e.desc }

/-- Method `updateMetric` (lines 116-125). -/
def updateMetric (s : St Metric) (region instanceID subsystem name : String)
    (value : Float64) : Outcome (St Metric) :=
  let FQName := BuildFQName namespace_ subsystem name
  match MustNewConstMetric (s.e.desc.lookup FQName) .UntypedValue value [region, instanceID] with
  | .ok m => .done { s with ch := s.ch ++ [m] }
  | .error f => .failed f s

/-! ### The walk of `Describe` (lines 68-92) -/

/-- Lines 73-78: one entry of an object found under a top-level key. -/
def describeInner (key : String) (e : Exporter) (kv : String × JVal) : Exporter :=
  match kv.2 with
  | .num _ => addDesc e key kv.1
  | _ => e

/-- Lines 83-88: one entry of an object found at index `i` of an array. -/
def describeElementInner (key : String) (i : Nat) (e : Exporter) (kv : String × JVal) :
    Exporter :=
  match kv.2 with
  | .num _ => addDesc e key (Itoa i ++ "_" ++ kv.1)
  | _ => e

/-- Lines 80-90: one element of an array found under a top-level key. -/
def describeElement (key : String) (e : Exporter) (iu : Nat × JVal) : Exporter :=
  match iu.2 with
  | .obj vvvalue => vvvalue.foldl (describeElementInner key iu.1) e
  | _ => e

/-- Lines 68-92: one top-level entry of the message. -/
def describeEntry (e : Exporter) (kv : String × JVal) : Exporter :=
  match kv.2 with
  | .num _ => addDesc e "" kv.1
  | .obj vvalue => vvalue.foldl (describeInner kv.1) e
  | .arr vvalue => vvalue.enum.foldl (describeElement kv.1) e
  | _ => e

/-- Lines 68-92: the type assertion on the message and the loop over it. -/
def describeMessage (s : St Desc) (message : JVal) : Outcome (St Desc) :=
  match message with
  | .obj m => .done { s with e := m.foldl describeEntry s.e }
  | _ => .failed .typeAssertion s

/-! ### The walk of `Collect` (lines 159-184) -/

/-- Lines 165-170: one entry of an object found under a top-level key. -/
def collectInner (regionID instanceID key : String) (s : St Metric) (kv : String × JVal) :
    Outcome (St Metric) :=
  match kv.2 with
  | .num vvvvalue => updateMetric s regionID instanceID key kv.1 vvvvalue
  | _ => .done s

/-- Lines 175-180: one entry of an object found at index `i` of an array. -/
def collectElementInner (regionID instanceID key : String) (i : Nat) (s : St Metric)
    (kv : String × JVal) : Outcome (St Metric) :=
  match kv.2 with
  | .num vvvvvalue => updateMetric s regionID instanceID key (Itoa i ++ "_" ++ kv.1) vvvvvalue
  | _ => .done s

/-- Lines 172-182: one element of an array found under a top-level key. -/
def collectElement (regionID instanceID key : String) (s : St Metric) (iu : Nat × JVal) :
    Outcome (St Metric) :=
  match iu.2 with
  | .obj vvvalue => forEach (collectElementInner regionID instanceID key iu.1) vvvalue s
  | _ => .done s

/-- Lines 160-184: one top-level entry of the message. -/
def collectEntry (regionID instanceID : String) (s : St Metric) (kv : String × JVal) :
    Outcome (St Metric) :=
  match kv.2 with
  | .num vvalue => updateMetric s regionID instanceID "" kv.1 vvalue
  | .obj vvalue => forEach (collectInner regionID instanceID kv.1) vvalue s
  | .arr vvalue => forEach (collectElement regionID instanceID kv.1) vvalue.enum s
  | _ => .done s

/-- Lines 159-184: the two type assertions that read `instanceID`, then the
loop over the message. -/
def collectMessage (regionID : String) (s : St Metric) (message : JVal) :
    Outcome (St Metric) :=
  match message with
  | .obj m =>
    match m.lookup "instanceID" with
    | some (.str instanceID) => forEach (collectEntry regionID instanceID) m s
    | _ => .failed .typeAssertion s
  | _ => .failed .typeAssertion s

/-! ### The fan-out over regions and streams -/

/-- What `svc.GetLogEvents` gives for one stream: an error, or the events; an
event is what `json.Unmarshal` makes of its message, `none` when the message
is not JSON. -/
inductive LogEvents where
  | err
  | events (es : List (Option JVal))

/-- A region of the RDS service: its ID and what `svc.DescribeLogStreams`
gives there, `none` for an error, else one `LogEvents` per stream. -/
structure Region where
  ID : String
  logStreams : Option (List LogEvents)

/-- Lines 51-93: the body of the loop over the streams in `Describe`. -/
def describeLogStream (s : St Desc) (out : LogEvents) : Outcome (St Desc) :=
  match out with
  | .err => .failed .fatal s
  | .events [] => .failed .indexOutOfRange s
  | .events (none :: _) => .done s
  | .events (some message :: _) => describeMessage s message

/-- Lines 37-94: the body of the loop over the regions in `Describe`. -/
def describeRegion (s : St Desc) (region : Region) : Outcome (St Desc) :=
  match region.logStreams with
  | none => .done s
  | some streams => forEach describeLogStream streams s

/-- Method `Describe` (lines 36-99): the loop over the regions, then every
descriptor of the map is sent on the channel. -/
def Describe (s : St Desc) (regions : List Region) : Outcome (St Desc) :=
  match forEach describeRegion regions s with
  | .done s' => .done { s' with ch := s'.ch ++ s'.e.desc.map Prod.snd }
  | .failed f s' => .failed f s'

/-- Lines 142-185: the body of the loop over the streams in `Collect`. -/
def collectLogStream (regionID : String) (s : St Metric) (out : LogEvents) :
    Outcome (St Metric) :=
  match out with
  | .err => .failed .fatal s
  | .events [] => .failed .indexOutOfRange s
  | .events (none :: _) => .done s
  | .events (some message :: _) => collectMessage regionID s message

/-- Lines 128-186: the body of the loop over the regions in `Collect`. -/
def collectRegion (s : St Metric) (region : Region) : Outcome (St Metric) :=
  match region.logStreams with
  | none => .done s
  | some streams => forEach (collectLogStream region.ID) streams s

/-- Method `Collect` (lines 127-187). -/
def Collect (s : St Metric) (regions : List Region) : Outcome (St Metric) :=
  forEach collectRegion regions s

/-! ## The calls made by the two walks

The loops of both walks read only the decoded message, so each walk makes a
fixed sequence of calls. They are listed here in the order of the loops, once
for the loops of `Collect` and once for the loops of `Describe`. -/

/-- A leaf as `updateMetric` receives it: subsystem, name and value. -/
abbrev Triple := String × String × Float64

/-- The call of `updateMetric` made for a leaf. -/
def updateTriple (regionID instanceID : String) (s : St Metric) (t : Triple) :
    Outcome (St Metric) :=
  updateMetric s regionID instanceID t.1 t.2.1 t.2.2

/-- The call of `addDesc` made for a leaf. -/
def addPair (e : Exporter) (p : String × String) : Exporter :=
  addDesc e p.1 p.2

/-- Lines 165-170: the call made for one entry of an inner object. -/
def collectInnerTriples (key : String) (kv : String × JVal) : List Triple :=
  match kv.2 with
  | .num vvvvalue => [(key, kv.1, vvvvalue)]
  | _ => []

/-- Lines 175-180: the call made for one entry of an object in an array. -/
def collectElementInnerTriples (key : String) (i : Nat) (kv : String × JVal) : List Triple :=
  match kv.2 with
  | .num vvvvvalue => [(key, Itoa i ++ "_" ++ kv.1, vvvvvalue)]
  | _ => []

/-- Lines 172-182: the calls made for one element of an array. -/
def collectElementTriples (key : String) (iu : Nat × JVal) : List Triple :=
  match iu.2 with
  | .obj vvvalue => vvvalue.flatMap (collectElementInnerTriples key iu.1)
  | _ => []

/-- Lines 160-184: the calls made for one top-level entry. -/
def collectEntryTriples (kv : String × JVal) : List Triple :=
  match kv.2 with
  | .num vvalue => [("", kv.1, vvalue)]
  | .obj vvalue => vvalue.flatMap (collectInnerTriples kv.1)
  | .arr vvalue => vvalue.enum.flatMap (collectElementTriples kv.1)
  | _ => []

/-- The arguments (subsystem, name, value) of the calls of `updateMetric` that
the walk of `Collect` makes over the object `m`, in order. -/
def collectTriples (m : List (String × JVal)) : List Triple :=
  m.flatMap collectEntryTriples

/-- Lines 73-78: the call made for one entry of an inner object. -/
def describeInnerPairs (key : String) (kv : String × JVal) : List (String × String) :=
  match kv.2 with
  | .num _ => [(key, kv.1)]
  | _ => []

/-- Lines 83-88: the call made for one entry of an object in an array. -/
def describeElementInnerPairs (key : String) (i : Nat) (kv : String × JVal) :
    List (String × String) :=
  match kv.2 with
  | .num _ => [(key, Itoa i ++ "_" ++ kv.1)]
  | _ => []

/-- Lines 80-90: the calls made for one element of an array. -/
def describeElementPairs (key : String) (iu : Nat × JVal) : List (String × String) :=
  match iu.2 with
  | .obj vvvalue => vvvalue.flatMap (describeElementInnerPairs key iu.1)
  | _ => []

/-- Lines 68-92: the calls made for one top-level entry. -/
def describeEntryPairs (kv : String × JVal) : List (String × String) :=
  match kv.2 with
  | .num _ => [("", kv.1)]
  | .obj vvalue => vvalue.flatMap (describeInnerPairs kv.1)
  | .arr vvalue => vvalue.enum.flatMap (describeElementPairs kv.1)
  | _ => []

/-- The arguments (subsystem, name) of the calls of `addDesc` that the walk of
`Describe` makes over the object `m`, in order. -/
def describePairs (m : List (String × JVal)) : List (String × String) :=
  m.flatMap describeEntryPairs

/-! ## Examples used below -/

/-- The snapshot with `instanceID` "db-1", `freeStorage` 42.0, `cpu` holding
`user` 5.1 and `system` 1.2, and `disks` holding one object with `readIOPS` 3.0. -/
def snapshotDb1 : List (String × JVal) :=
  [("instanceID", .str "db-1"),
   ("freeStorage", .num ⟨0x4045000000000000⟩),
   ("cpu", .obj [("user", .num ⟨0x4014666666666666⟩), ("system", .num ⟨0x3ff3333333333333⟩)]),
   ("disks", .arr [.obj [("readIOPS", .num ⟨0x4008000000000000⟩)]])]

/-- The pairs on which the fully qualified name can be read back: the name is
not empty, the subsystem has no `_`, and with an empty subsystem the name has
no `_` either. -/
def Separable (subsystem name : String) : Prop :=
  name ≠ "" ∧ '_' ∉ subsystem.data ∧ (subsystem = "" → '_' ∉ name.data)

/-- The descriptor `addDesc` stores under the key `FQName`. -/
def descFor (FQName : String) : Desc :=
  NewDesc (ToLower FQName) helpText ["region", "instanceID"] []

/-- Every entry of the map is the descriptor `addDesc` stores under its key. -/
def Canonical (e : Exporter) : Prop :=
  ∀ k d, (k, d) ∈ e.desc → d = descFor k

/-- No key occurs twice, as in a Go map. -/
def WellFormed (e : Exporter) : Prop :=
  (e.desc.map Prod.fst).Nodup

/-- A region with one stream whose latest event decodes to the object `m`. -/
def regionOf (ID : String) (m : List (String × JVal)) : Region :=
  { ID := ID, logStreams := some [LogEvents.events [some (JVal.obj m)]] }

/-- The snapshot `snapshotDb1` with one more top-level number, `swap`. -/
def snapshotDb1Swap : List (String × JVal) :=
  snapshotDb1 ++ [("swap", .num ⟨0x401c000000000000⟩)]

/-- The string that line 159 reads under `instanceID` (the empty string when
there is none; the walk does not start then). -/
def instanceIDOf (m : List (String × JVal)) : String :=
  match m.lookup "instanceID" with
  | some (.str instanceID) => instanceID
  | _ => ""

/-- A region whose stream listing succeeds, with one stream per snapshot, the
snapshot being the latest event of the stream. -/
def regionOfSnapshots (r : String × List (List (String × JVal))) : Region :=
  { ID := r.1, logStreams := some (r.2.map fun m => LogEvents.events [some (JVal.obj m)]) }

/-- The sample for a leaf: bound to the descriptor stored under the key of the
leaf, untyped, with the value of the leaf and the labels region, instanceID. -/
def sampleOf (regionID instanceID : String) (t : Triple) : Metric :=
  { desc := descFor (BuildFQName namespace_ t.1 t.2.1), valType := ValueType.UntypedValue,
    val := t.2.2, labelValues := [regionID, instanceID] }

/-- One sample per leaf of the snapshot, in the order of the walk. -/
def snapshotSamples (regionID : String) (m : List (String × JVal)) : List Metric :=
  (collectTriples m).map (sampleOf regionID (instanceIDOf m))

/-- One sample per leaf of each snapshot of the region. -/
def regionSamples (r : String × List (List (String × JVal))) : List Metric :=
  r.2.flatMap (snapshotSamples r.1)

/-- Two regions, each reporting one instance with `freeStorage`. -/
def twoRegions : List (String × List (List (String × JVal))) :=
  [("us-east-1", [[("instanceID", .str "db-1"), ("freeStorage", .num ⟨0x4045000000000000⟩)]]),
   ("eu-west-1", [[("instanceID", .str "db-2"), ("freeStorage", .num ⟨0x401c000000000000⟩)]])]

/-- A snapshot whose array `disks` holds a number, a string and then an object
with `util` 17.5. -/
def snapshotDisks : List (String × JVal) :=
  [("instanceID", .str "db-1"),
   ("disks", .arr [.num ⟨0x3ff0000000000000⟩, .str "x",
      .obj [("util", .num ⟨0x4031800000000000⟩)]])]

/-- The identity as the specification words it: the lower-cased join by `_` of the
non-empty segments among the namespace, the subsystem and the leaf name. -/
def specIdentity (subsystem leafName : String) : String :=
  ToLower (String.intercalate "_"
    ([namespace_, subsystem, leafName].filter (fun seg => decide (seg ≠ ""))))

/-- The calls of `addDesc` made for one stream: those of the walk when the
latest event decodes to an object, none otherwise. -/
def streamPairs (out : LogEvents) : List (String × String) :=
  match out with
  | .events (some (.obj m) :: _) => describePairs m
  | _ => []

/-- The calls of `addDesc` made for one region. -/
def regionPairs (region : Region) : List (String × String) :=
  match region.logStreams with
  | none => []
  | some streams => streams.flatMap streamPairs

/-- The leaves (subsystem, name) walked by `Describe` over the regions, in order. -/
def walkedPairs (regions : List Region) : List (String × String) :=
  regions.flatMap regionPairs

/-- The fetch of the stream gave at least one event, and its first event is
either not JSON or a snapshot whose root is an object. -/
def ReadableStream : LogEvents → Prop
  | .events (none :: _) => True
  | .events (some (.obj _) :: _) => True
  | _ => False

/-- Every stream listed for the region is readable (nothing is asked of a
region whose listing fails). -/
def ReadableRegion (region : Region) : Prop :=
  match region.logStreams with
  | none => True
  | some streams => ∀ out ∈ streams, ReadableStream out

/-- Every stream of every region is readable. -/
def Readable (regions : List Region) : Prop :=
  ∀ region ∈ regions, ReadableRegion region

/-- The snapshot `m` is the latest event of a stream listed for a region. -/
def SnapshotOf (regions : List Region) (m : List (String × JVal)) : Prop :=
  ∃ region ∈ regions, ∃ streams, region.logStreams = some streams ∧
    ∃ es, LogEvents.events (some (JVal.obj m) :: es) ∈ streams

/-- A region with two streams: the fetch of the first gives no event, the
second holds `snapshotDb1`. -/
def regionEmptyStream : Region :=
  { ID := "us-east-1",
    logStreams := some [LogEvents.events [], LogEvents.events [some (JVal.obj snapshotDb1)]] }

/-- Three regions: the listing of the second fails, the first and the third
each hold a stream with `freeStorage`, and the third also a stream that is not
JSON. -/
def threeRegions : List Region :=
  [{ ID := "us-east-1",
     logStreams := some [LogEvents.events [some (JVal.obj
       [("instanceID", .str "db-1"), ("freeStorage", .num ⟨0x4045000000000000⟩)])]] },
   { ID := "cn-north-1", logStreams := none },
   { ID := "eu-west-1",
     logStreams := some [LogEvents.events [none], LogEvents.events [some (JVal.obj
       [("instanceID", .str "db-2"), ("freeStorage", .num ⟨0x401c000000000000⟩),
        ("cpu", .obj [("user", .num ⟨0x4014666666666666⟩)])])]] }]

/-- One region whose snapshot has the top-level number `free-storage`. -/
def hyphenRegions : List (String × List (List (String × JVal))) :=
  [("us-east-1",
    [[("instanceID", .str "db-1"), ("free-storage", .num ⟨0x4045000000000000⟩)]])]

/-- Two regions whose snapshots both have the top-level number `A`; the second
also has the top-level number `a`. -/
def caseRegions : List (String × List (List (String × JVal))) :=
  [("us-east-1", [[("instanceID", .str "db-1"), ("A", .num ⟨0x3ff0000000000000⟩)]]),
   ("eu-west-1", [[("instanceID", .str "db-2"), ("A", .num ⟨0x4000000000000000⟩),
      ("a", .num ⟨0x4008000000000000⟩)]])]

/-- The metric names carried by the descriptors of the registry, entry by entry. -/
def descriptorNames (e : Exporter) : List String :=
  e.desc.map fun kd => kd.2.fqName

/-- A snapshot with the top-level numbers `A` and `a`. -/
def snapshotCase : List (String × JVal) :=
  [("instanceID", .str "db-1"), ("A", .num ⟨0x3ff0000000000000⟩),
   ("a", .num ⟨0x4000000000000000⟩)]

/-- A region with two streams: the first holds `snapshotDb1`, the latest message
of the second decodes to an empty array. -/
def regionArrayRoot : Region :=
  { ID := "us-east-1",
    logStreams := some [LogEvents.events [some (JVal.obj snapshotDb1)],
      LogEvents.events [some (JVal.arr [])]] }

/-! ## Loops -/

theorem forEach_append {α σ : Type} (body : σ → α → Outcome σ) (xs ys : List α) (s : σ) :
    forEach body (xs ++ ys) s =
      match forEach body xs s with
      | .done s' => forEach body ys s'
      | .failed f s' => .failed f s' := by
  induction xs generalizing s with
  | nil => rfl
  | cons a rest ih =>
    simp only [List.cons_append, forEach]
    cases body s a with
    | done s' => simpa using ih s'
    | failed f s' => rfl

/-- A loop whose body is itself a loop over `g a` is one loop over the
concatenation. -/
theorem forEach_flatMap {α β σ : Type} (body : σ → β → Outcome σ) (g : α → List β)
    (xs : List α) (s : σ) :
    forEach (fun s a => forEach body (g a) s) xs s = forEach body (xs.flatMap g) s := by
  induction xs generalizing s with
  | nil => rfl
  | cons a rest ih =>
    rw [List.flatMap_cons, forEach_append]
    simp only [forEach]
    cases forEach body (g a) s with
    | done s' => simpa using ih s'
    | failed f s' => rfl

theorem forEach_congr {α σ : Type} (b1 b2 : σ → α → Outcome σ) (xs : List α)
    (h : ∀ s a, a ∈ xs → b1 s a = b2 s a) (s : σ) :
    forEach b1 xs s = forEach b2 xs s := by
  induction xs generalizing s with
  | nil => rfl
  | cons a rest ih =>
    simp only [forEach]
    rw [h s a (List.mem_cons_self a rest)]
    cases b2 s a with
    | done s' => exact ih (fun s x hx => h s x (List.mem_cons_of_mem a hx)) s'
    | failed f s' => rfl

theorem foldl_flatMap {α β σ : Type} (f : σ → β → σ) (g : α → List β) (xs : List α) (s : σ) :
    xs.foldl (fun s a => (g a).foldl f s) s = (xs.flatMap g).foldl f s := by
  induction xs generalizing s with
  | nil => rfl
  | cons a rest ih => simp [List.flatMap_cons, List.foldl_append, ih]

/-! ## The walks make the listed calls -/

theorem collectInner_eq (regionID instanceID key : String) (s : St Metric)
    (kv : String × JVal) :
    collectInner regionID instanceID key s kv =
      forEach (updateTriple regionID instanceID) (collectInnerTriples key kv) s := by
  unfold collectInner collectInnerTriples
  cases h : kv.2 <;> simp only [forEach, updateTriple]
  cases updateMetric _ _ _ _ _ _ <;> rfl

theorem collectElementInner_eq (regionID instanceID key : String) (i : Nat) (s : St Metric)
    (kv : String × JVal) :
    collectElementInner regionID instanceID key i s kv =
      forEach (updateTriple regionID instanceID) (collectElementInnerTriples key i kv) s := by
  unfold collectElementInner collectElementInnerTriples
  cases h : kv.2 <;> simp only [forEach, updateTriple]
  cases updateMetric _ _ _ _ _ _ <;> rfl

theorem collectElement_eq (regionID instanceID key : String) (s : St Metric)
    (iu : Nat × JVal) :
    collectElement regionID instanceID key s iu =
      forEach (updateTriple regionID instanceID) (collectElementTriples key iu) s := by
  unfold collectElement collectElementTriples
  cases h : iu.2 <;> simp only [forEach]
  rw [← forEach_flatMap]
  exact forEach_congr _ _ _ (fun s a _ => collectElementInner_eq _ _ _ _ s a) s

theorem collectEntry_eq (regionID instanceID : String) (s : St Metric) (kv : String × JVal) :
    collectEntry regionID instanceID s kv =
      forEach (updateTriple regionID instanceID) (collectEntryTriples kv) s := by
  unfold collectEntry collectEntryTriples
  cases h : kv.2 <;> simp only [forEach]
  · simp only [updateTriple]
    cases updateMetric _ _ _ _ _ _ <;> rfl
  · rw [← forEach_flatMap]
    exact forEach_congr _ _ _ (fun s a _ => collectElement_eq _ _ _ s a) s
  · rw [← forEach_flatMap]
    exact forEach_congr _ _ _ (fun s a _ => collectInner_eq _ _ _ s a) s

/-- The walk of `Collect` over an object is the calls of `collectTriples`, made
in order until one of them fails. -/
theorem collectWalk_eq (regionID instanceID : String) (m : List (String × JVal))
    (s : St Metric) :
    forEach (collectEntry regionID instanceID) m s =
      forEach (updateTriple regionID instanceID) (collectTriples m) s := by
  unfold collectTriples
  rw [← forEach_flatMap]
  exact forEach_congr _ _ _ (fun s a _ => collectEntry_eq _ _ s a) s

theorem describeInner_eq (key : String) (e : Exporter) (kv : String × JVal) :
    describeInner key e kv = (describeInnerPairs key kv).foldl addPair e := by
  unfold describeInner describeInnerPairs
  cases h : kv.2 <;> rfl

theorem describeElementInner_eq (key : String) (i : Nat) (e : Exporter) (kv : String × JVal) :
    describeElementInner key i e kv = (describeElementInnerPairs key i kv).foldl addPair e := by
  unfold describeElementInner describeElementInnerPairs
  cases h : kv.2 <;> rfl

theorem describeElement_eq (key : String) (e : Exporter) (iu : Nat × JVal) :
    describeElement key e iu = (describeElementPairs key iu).foldl addPair e := by
  unfold describeElement describeElementPairs
  cases h : iu.2 <;> simp only [List.foldl_nil]
  rw [← foldl_flatMap]
  congr 1
  funext e kv
  exact describeElementInner_eq key iu.1 e kv

theorem describeEntry_eq (e : Exporter) (kv : String × JVal) :
    describeEntry e kv = (describeEntryPairs kv).foldl addPair e := by
  unfold describeEntry describeEntryPairs
  cases h : kv.2 <;> simp only [List.foldl_nil]
  · rfl
  · rw [← foldl_flatMap]
    congr 1
    funext e iu
    exact describeElement_eq kv.1 e iu
  · rw [← foldl_flatMap]
    congr 1
    funext e x
    exact describeInner_eq kv.1 e x

/-- The walk of `Describe` over an object is the calls of `describePairs`, made
in order. -/
theorem describeWalk_eq (m : List (String × JVal)) (e : Exporter) :
    m.foldl describeEntry e = (describePairs m).foldl addPair e := by
  unfold describePairs
  rw [← foldl_flatMap]
  congr 1
  funext e kv
  exact describeEntry_eq e kv

/-! ## Which leaves the walks reach -/

theorem mem_collectInnerTriples (key : String) (kv : String × JVal) (t : Triple) :
    t ∈ collectInnerTriples key kv ↔ ∃ v, kv.2 = JVal.num v ∧ t = (key, kv.1, v) := by
  unfold collectInnerTriples
  cases h : kv.2 <;> simp

theorem mem_collectElementInnerTriples (key : String) (i : Nat) (kv : String × JVal)
    (t : Triple) :
    t ∈ collectElementInnerTriples key i kv ↔
      ∃ v, kv.2 = JVal.num v ∧ t = (key, Itoa i ++ "_" ++ kv.1, v) := by
  unfold collectElementInnerTriples
  cases h : kv.2 <;> simp

theorem mem_collectElementTriples (key : String) (iu : Nat × JVal) (t : Triple) :
    t ∈ collectElementTriples key iu ↔
      ∃ inner k2 v, iu.2 = JVal.obj inner ∧ (k2, JVal.num v) ∈ inner ∧
        t = (key, Itoa iu.1 ++ "_" ++ k2, v) := by
  unfold collectElementTriples
  cases h : iu.2 <;> simp only [List.not_mem_nil, false_iff, List.mem_flatMap,
    mem_collectElementInnerTriples, JVal.obj.injEq, reduceCtorEq, false_and, exists_false,
    not_false_eq_true]
  constructor
  · rintro ⟨⟨k2, val⟩, hmem, v, hv, rfl⟩
    simp only at hv
    subst hv
    exact ⟨_, k2, v, rfl, hmem, rfl⟩
  · rintro ⟨inner, k2, v, rfl, hmem, rfl⟩
    exact ⟨(k2, JVal.num v), hmem, v, rfl, rfl⟩

theorem mem_collectEntryTriples (kv : String × JVal) (t : Triple) :
    t ∈ collectEntryTriples kv ↔
      (∃ v, kv.2 = JVal.num v ∧ t = ("", kv.1, v)) ∨
      (∃ inner k2 v, kv.2 = JVal.obj inner ∧ (k2, JVal.num v) ∈ inner ∧ t = (kv.1, k2, v)) ∨
      (∃ xs i inner k2 v, kv.2 = JVal.arr xs ∧ xs[i]? = some (JVal.obj inner) ∧
        (k2, JVal.num v) ∈ inner ∧ t = (kv.1, Itoa i ++ "_" ++ k2, v)) := by
  unfold collectEntryTriples
  cases h : kv.2 <;> simp only [List.not_mem_nil, false_iff, List.mem_flatMap, List.mem_singleton,
    mem_collectInnerTriples, mem_collectElementTriples, JVal.obj.injEq, JVal.arr.injEq,
    JVal.num.injEq, reduceCtorEq, false_and, exists_false, not_false_eq_true, or_self, or_false,
    false_or]
  · constructor
    · rintro rfl
      exact ⟨_, rfl, rfl⟩
    · rintro ⟨v, rfl, rfl⟩
      rfl
  · constructor
    · rintro ⟨⟨i, u⟩, hmem, inner, k2, v, hu, hin, rfl⟩
      simp only at hu
      subst hu
      exact ⟨_, i, inner, k2, v, rfl, List.mk_mem_enum_iff_getElem?.mp hmem, hin, rfl⟩
    · rintro ⟨xs, i, inner, k2, v, rfl, hget, hin, rfl⟩
      exact ⟨(i, JVal.obj inner), List.mk_mem_enum_iff_getElem?.mpr hget, inner, k2, v, rfl, hin,
        rfl⟩
  · constructor
    · rintro ⟨⟨k2, val⟩, hmem, v, hv, rfl⟩
      simp only at hv
      subst hv
      exact ⟨_, k2, v, rfl, hmem, rfl⟩
    · rintro ⟨inner, k2, v, rfl, hmem, rfl⟩
      exact ⟨(k2, JVal.num v), hmem, v, rfl, rfl⟩

/-- The leaves reached by the walk of `Collect`: numbers at `root.key`,
`root.key.subkey` and `root.key[index].subkey`, and nothing else. -/
theorem mem_collectTriples (m : List (String × JVal)) (t : Triple) :
    t ∈ collectTriples m ↔
      (∃ k v, (k, JVal.num v) ∈ m ∧ t = ("", k, v)) ∨
      (∃ k inner k2 v, (k, JVal.obj inner) ∈ m ∧ (k2, JVal.num v) ∈ inner ∧ t = (k, k2, v)) ∨
      (∃ k xs i inner k2 v, (k, JVal.arr xs) ∈ m ∧ xs[i]? = some (JVal.obj inner) ∧
        (k2, JVal.num v) ∈ inner ∧ t = (k, Itoa i ++ "_" ++ k2, v)) := by
  unfold collectTriples
  simp only [List.mem_flatMap, mem_collectEntryTriples]
  constructor
  · rintro ⟨⟨k, val⟩, hmem, h | h | h⟩
    · obtain ⟨v, hv, rfl⟩ := h
      simp only at hv
      subst hv
      exact Or.inl ⟨k, v, hmem, rfl⟩
    · obtain ⟨inner, k2, v, hv, hin, rfl⟩ := h
      simp only at hv
      subst hv
      exact Or.inr (Or.inl ⟨k, inner, k2, v, hmem, hin, rfl⟩)
    · obtain ⟨xs, i, inner, k2, v, hv, hget, hin, rfl⟩ := h
      simp only at hv
      subst hv
      exact Or.inr (Or.inr ⟨k, xs, i, inner, k2, v, hmem, hget, hin, rfl⟩)
  · rintro (⟨k, v, hmem, rfl⟩ | ⟨k, inner, k2, v, hmem, hin, rfl⟩ |
      ⟨k, xs, i, inner, k2, v, hmem, hget, hin, rfl⟩)
    · exact ⟨_, hmem, Or.inl ⟨v, rfl, rfl⟩⟩
    · exact ⟨_, hmem, Or.inr (Or.inl ⟨inner, k2, v, rfl, hin, rfl⟩)⟩
    · exact ⟨_, hmem, Or.inr (Or.inr ⟨xs, i, inner, k2, v, rfl, hget, hin, rfl⟩)⟩

/-! ## The fully qualified name -/

theorem namespace_ne_empty : namespace_ ≠ "" := by decide

theorem BuildFQName_empty_name (subsystem : String) :
    BuildFQName namespace_ subsystem "" = "" := by
  simp [BuildFQName]

theorem BuildFQName_empty_subsystem (name : String) (hn : name ≠ "") :
    BuildFQName namespace_ "" name = namespace_ ++ "_" ++ name := by
  simp only [BuildFQName, hn, if_false, ne_eq, not_true_eq_false, and_false,
    namespace_ne_empty, not_false_eq_true, if_true]
  rfl

theorem BuildFQName_nonempty (subsystem name : String) (hs : subsystem ≠ "") (hn : name ≠ "") :
    BuildFQName namespace_ subsystem name = namespace_ ++ "_" ++ subsystem ++ "_" ++ name := by
  simp only [BuildFQName, hn, if_false, ne_eq, hs, namespace_ne_empty, not_false_eq_true,
    and_self, if_true]
  rfl

theorem BuildFQName_ne_empty (subsystem name : String) (hn : name ≠ "") :
    BuildFQName namespace_ subsystem name ≠ "" := by
  by_cases hs : subsystem = ""
  · subst hs
    rw [BuildFQName_empty_subsystem name hn]
    intro h
    have h' := congrArg String.data h
    simp [String.data_append, namespace_] at h'
  · rw [BuildFQName_nonempty subsystem name hs hn]
    intro h
    have h' := congrArg String.data h
    simp [String.data_append, namespace_] at h'

/-- Two lists cut at a separator that occurs in neither head are equal only
when heads and tails are. -/
theorem append_sep_inj {c : Char} :
    ∀ (x1 x2 y1 y2 : List Char), c ∉ x1 → c ∉ x2 → x1 ++ c :: y1 = x2 ++ c :: y2 →
      x1 = x2 ∧ y1 = y2
  | [], [], _, _, _, _, h => by simpa using h
  | [], b :: x2, _, _, _, h2, h => by
    simp only [List.nil_append, List.cons_append, List.cons.injEq] at h
    exact absurd (h.1 ▸ List.mem_cons_self b x2) h2
  | a :: x1, [], _, _, h1, _, h => by
    simp only [List.nil_append, List.cons_append, List.cons.injEq] at h
    exact absurd (h.1 ▸ List.mem_cons_self a x1) h1
  | a :: x1, b :: x2, y1, y2, h1, h2, h => by
    simp only [List.cons_append, List.cons.injEq] at h
    have ih := append_sep_inj x1 x2 y1 y2 (fun hm => h1 (List.mem_cons_of_mem a hm))
      (fun hm => h2 (List.mem_cons_of_mem b hm)) h.2
    exact ⟨by rw [h.1, ih.1], ih.2⟩

theorem BuildFQName_inj_name (subsystem n1 n2 : String)
    (h : BuildFQName namespace_ subsystem n1 = BuildFQName namespace_ subsystem n2) :
    n1 = n2 := by
  by_cases h1 : n1 = ""
  · subst h1
    rw [BuildFQName_empty_name] at h
    by_contra h2
    exact BuildFQName_ne_empty subsystem n2 (fun h' => h2 h'.symm) h.symm
  by_cases h2 : n2 = ""
  · subst h2
    rw [BuildFQName_empty_name subsystem] at h
    exact absurd h (BuildFQName_ne_empty subsystem n1 h1)
  by_cases hs : subsystem = ""
  · subst hs
    rw [BuildFQName_empty_subsystem n1 h1, BuildFQName_empty_subsystem n2 h2] at h
    have h' := congrArg String.data h
    simp only [String.data_append, List.append_assoc] at h'
    exact String.ext (List.append_cancel_left (List.append_cancel_left h'))
  · rw [BuildFQName_nonempty subsystem n1 hs h1, BuildFQName_nonempty subsystem n2 hs h2] at h
    have h' := congrArg String.data h
    simp only [String.data_append, List.append_assoc] at h'
    exact String.ext (List.append_cancel_left (List.append_cancel_left
      (List.append_cancel_left (List.append_cancel_left h'))))

theorem BuildFQName_inj_separable (s1 n1 s2 n2 : String) (d1 : Separable s1 n1)
    (d2 : Separable s2 n2)
    (h : BuildFQName namespace_ s1 n1 = BuildFQName namespace_ s2 n2) :
    s1 = s2 ∧ n1 = n2 := by
  obtain ⟨hn1, hs1, he1⟩ := d1
  obtain ⟨hn2, hs2, he2⟩ := d2
  by_cases e1 : s1 = ""
  · by_cases e2 : s2 = ""
    · subst e1 e2
      exact ⟨rfl, BuildFQName_inj_name "" n1 n2 h⟩
    · subst e1
      rw [BuildFQName_empty_subsystem n1 hn1, BuildFQName_nonempty s2 n2 e2 hn2] at h
      have h' := congrArg String.data h
      simp only [String.data_append, List.append_assoc] at h'
      have h'' := List.append_cancel_left (List.append_cancel_left h')
      exfalso
      apply he1 rfl
      rw [h'']
      simp
  · by_cases e2 : s2 = ""
    · subst e2
      rw [BuildFQName_nonempty s1 n1 e1 hn1, BuildFQName_empty_subsystem n2 hn2] at h
      have h' := congrArg String.data h
      simp only [String.data_append, List.append_assoc] at h'
      have h'' := List.append_cancel_left (List.append_cancel_left h')
      exfalso
      apply he2 rfl
      rw [← h'']
      simp
    · rw [BuildFQName_nonempty s1 n1 e1 hn1, BuildFQName_nonempty s2 n2 e2 hn2] at h
      have h' := congrArg String.data h
      simp only [String.data_append, List.append_assoc] at h'
      have h'' := List.append_cancel_left (List.append_cancel_left h')
      have h3 := append_sep_inj s1.data s2.data n1.data n2.data hs1 hs2 h''
      exact ⟨String.ext h3.1, String.ext h3.2⟩

/-! ## Lower-casing -/

theorem ToLower_append (a b : String) : ToLower (a ++ b) = ToLower a ++ ToLower b := by
  apply String.ext
  simp [ToLower, String.data_append]

theorem ToLower_eq_empty_iff (s : String) : ToLower s = "" ↔ s = "" := by
  constructor
  · intro h
    have h' := congrArg String.data h
    simp only [ToLower, List.map_eq_nil_iff] at h'
    exact String.ext h'
  · rintro rfl
    rfl

/-- Lower-casing makes no `_` out of another character. -/
theorem toLower_eq_underscore (c : Char) (h : Char.toLower c = '_') : c = '_' := by
  unfold Char.toLower at h
  simp only at h
  split at h
  · rename_i hr
    exfalso
    obtain ⟨h1, h2⟩ := hr
    have h1' : 65 ≤ c.toNat := h1
    have h2' : c.toNat ≤ 90 := h2
    generalize c.toNat = n at h h1' h2'
    interval_cases n <;> exact absurd h (by decide)
  · exact h

theorem not_mem_ToLower_underscore (s : String) (h : '_' ∉ s.data) :
    '_' ∉ (ToLower s).data := by
  intro hm
  simp only [ToLower, List.mem_map] at hm
  obtain ⟨c, hc, hcl⟩ := hm
  exact h (toLower_eq_underscore c hcl ▸ hc)

/-- Lower-casing the fully qualified name is building it from the lower-cased
subsystem and name. -/
theorem ToLower_BuildFQName (subsystem name : String) :
    ToLower (BuildFQName namespace_ subsystem name) =
      BuildFQName namespace_ (ToLower subsystem) (ToLower name) := by
  have hns : ToLower namespace_ = namespace_ := by decide
  have hsep : ToLower "_" = "_" := by decide
  by_cases hn : name = ""
  · subst hn
    have h0 : ToLower "" = "" := rfl
    rw [h0, BuildFQName_empty_name, BuildFQName_empty_name]
    rfl
  · have hn' : ToLower name ≠ "" := fun h => hn ((ToLower_eq_empty_iff name).mp h)
    by_cases hs : subsystem = ""
    · subst hs
      have h0 : ToLower "" = "" := rfl
      rw [h0, BuildFQName_empty_subsystem name hn, BuildFQName_empty_subsystem _ hn',
        ToLower_append, ToLower_append, hns, hsep]
    · have hs' : ToLower subsystem ≠ "" := fun h => hs ((ToLower_eq_empty_iff subsystem).mp h)
      rw [BuildFQName_nonempty subsystem name hs hn, BuildFQName_nonempty _ _ hs' hn',
        ToLower_append, ToLower_append, ToLower_append, ToLower_append, hns, hsep]

theorem separable_ToLower (subsystem name : String) (h : Separable subsystem name) :
    Separable (ToLower subsystem) (ToLower name) := by
  obtain ⟨hn, hs, he⟩ := h
  refine ⟨fun h => hn ((ToLower_eq_empty_iff name).mp h), not_mem_ToLower_underscore _ hs, ?_⟩
  intro h0
  exact not_mem_ToLower_underscore _ (he ((ToLower_eq_empty_iff subsystem).mp h0))

/-! ## The registry -/

theorem addDesc_of_present (e : Exporter) (subsystem name : String) (d : Desc)
    (h : e.desc.lookup (BuildFQName namespace_ subsystem name) = some d) :
    addDesc e subsystem name = e := by
  simp only [addDesc, h]

theorem addDesc_of_absent (e : Exporter) (subsystem name : String)
    (h : e.desc.lookup (BuildFQName namespace_ subsystem name) = none) :
    addDesc e subsystem name =
      { desc := (BuildFQName namespace_ subsystem name,
          descFor (BuildFQName namespace_ subsystem name)) :: e.desc } := by
  simp only [addDesc, h, descFor]

theorem lookup_cons_self (k : String) (d : Desc) (l : List (String × Desc)) :
    List.lookup k ((k, d) :: l) = some d := by
  simp [List.lookup_cons]

theorem lookup_cons_of_ne (k k' : String) (d : Desc) (l : List (String × Desc)) (h : k ≠ k') :
    List.lookup k ((k', d) :: l) = List.lookup k l := by
  have hb : (k == k') = false := by simpa using h
  simp [List.lookup_cons, hb]

theorem mem_of_lookup_eq_some {k : String} {d : Desc} :
    ∀ {l : List (String × Desc)}, List.lookup k l = some d → (k, d) ∈ l
  | [], h => by simp at h
  | (k', d') :: l, h => by
    by_cases hk : k = k'
    · subst hk
      rw [lookup_cons_self] at h
      simp only [Option.some.injEq] at h
      subst h
      exact List.mem_cons_self _ _
    · rw [lookup_cons_of_ne k k' d' l hk] at h
      exact List.mem_cons_of_mem _ (mem_of_lookup_eq_some h)

theorem lookup_eq_none_of_not_mem_keys {k : String} :
    ∀ {l : List (String × Desc)}, k ∉ l.map Prod.fst → List.lookup k l = none
  | [], _ => rfl
  | (k', d') :: l, h => by
    simp only [List.map_cons, List.mem_cons, not_or] at h
    rw [lookup_cons_of_ne k k' d' l h.1]
    exact lookup_eq_none_of_not_mem_keys h.2

theorem not_mem_keys_of_lookup_eq_none {k : String} :
    ∀ {l : List (String × Desc)}, List.lookup k l = none → k ∉ l.map Prod.fst
  | [], _ => by simp
  | (k', d') :: l, h => by
    by_cases hk : k = k'
    · subst hk
      rw [lookup_cons_self] at h
      simp at h
    · rw [lookup_cons_of_ne k k' d' l hk] at h
      simp only [List.map_cons, List.mem_cons, not_or]
      exact ⟨hk, not_mem_keys_of_lookup_eq_none h⟩

/-- After `addDesc` the key of the leaf is in the map. -/
theorem lookup_addDesc_self (e : Exporter) (subsystem name : String) :
    ∃ d, (addDesc e subsystem name).desc.lookup (BuildFQName namespace_ subsystem name) =
      some d := by
  cases h : e.desc.lookup (BuildFQName namespace_ subsystem name) with
  | some d => exact ⟨d, by rw [addDesc_of_present e subsystem name d h]; exact h⟩
  | none =>
    rw [addDesc_of_absent e subsystem name h]
    exact ⟨_, lookup_cons_self _ _ _⟩

/-- The call `addDesc` keeps every entry of the map. -/
theorem lookup_addDesc_of_lookup (e : Exporter) (subsystem name k : String) (d : Desc)
    (h : e.desc.lookup k = some d) : (addDesc e subsystem name).desc.lookup k = some d := by
  cases hl : e.desc.lookup (BuildFQName namespace_ subsystem name) with
  | some d' => rw [addDesc_of_present e subsystem name d' hl]; exact h
  | none =>
    rw [addDesc_of_absent e subsystem name hl]
    have hk : k ≠ BuildFQName namespace_ subsystem name := by
      intro hk
      rw [hk, hl] at h
      exact Option.noConfusion h
    simp only
    rw [lookup_cons_of_ne k _ _ _ hk]
    exact h

theorem wellFormed_addDesc (e : Exporter) (subsystem name : String) (h : WellFormed e) :
    WellFormed (addDesc e subsystem name) := by
  cases hl : e.desc.lookup (BuildFQName namespace_ subsystem name) with
  | some d' => rw [addDesc_of_present e subsystem name d' hl]; exact h
  | none =>
    rw [addDesc_of_absent e subsystem name hl]
    unfold WellFormed at *
    simp only [List.map_cons, List.nodup_cons]
    exact ⟨not_mem_keys_of_lookup_eq_none hl, h⟩

theorem canonical_addDesc (e : Exporter) (subsystem name : String) (h : Canonical e) :
    Canonical (addDesc e subsystem name) := by
  cases hl : e.desc.lookup (BuildFQName namespace_ subsystem name) with
  | some d' => rw [addDesc_of_present e subsystem name d' hl]; exact h
  | none =>
    rw [addDesc_of_absent e subsystem name hl]
    intro k d hmem
    simp only [List.mem_cons, Prod.mk.injEq] at hmem
    rcases hmem with ⟨rfl, rfl⟩ | hmem
    · rfl
    · exact h k d hmem

theorem wellFormed_foldl_addPair (ps : List (String × String)) (e : Exporter)
    (h : WellFormed e) : WellFormed (ps.foldl addPair e) := by
  induction ps generalizing e with
  | nil => exact h
  | cons p rest ih => exact ih _ (wellFormed_addDesc e p.1 p.2 h)

theorem canonical_foldl_addPair (ps : List (String × String)) (e : Exporter)
    (h : Canonical e) : Canonical (ps.foldl addPair e) := by
  induction ps generalizing e with
  | nil => exact h
  | cons p rest ih => exact ih _ (canonical_addDesc e p.1 p.2 h)

theorem lookup_foldl_addPair_of_lookup (ps : List (String × String)) (e : Exporter)
    (k : String) (d : Desc) (h : e.desc.lookup k = some d) :
    (ps.foldl addPair e).desc.lookup k = some d := by
  induction ps generalizing e with
  | nil => exact h
  | cons p rest ih => exact ih _ (lookup_addDesc_of_lookup e p.1 p.2 k d h)

/-- After the calls `ps`, the key of each of their leaves is in the map. -/
theorem lookup_foldl_addPair_of_mem (ps : List (String × String)) (e : Exporter)
    (p : String × String) (hp : p ∈ ps) :
    ∃ d, (ps.foldl addPair e).desc.lookup (BuildFQName namespace_ p.1 p.2) = some d := by
  induction ps generalizing e with
  | nil => simp at hp
  | cons q rest ih =>
    rcases List.mem_cons.mp hp with rfl | hmem
    · obtain ⟨d, hd⟩ := lookup_addDesc_self e p.1 p.2
      exact ⟨d, lookup_foldl_addPair_of_lookup rest _ _ d hd⟩
    · exact ih _ hmem

theorem count_keys_eq_one {k : String} {d : Desc} {l : List (String × Desc)}
    (hnd : (l.map Prod.fst).Nodup) (h : List.lookup k l = some d) :
    (l.map Prod.fst).count k = 1 :=
  List.count_eq_one_of_mem hnd (List.mem_map.mpr ⟨(k, d), mem_of_lookup_eq_some h, rfl⟩)

theorem good_NewExporter : WellFormed NewExporter ∧ Canonical NewExporter := by
  constructor
  · simp [WellFormed, NewExporter]
  · intro k d h
    simp [NewExporter] at h

theorem mem_keys_addDesc (e : Exporter) (subsystem name k : String) :
    k ∈ (addDesc e subsystem name).desc.map Prod.fst ↔
      k ∈ e.desc.map Prod.fst ∨ k = BuildFQName namespace_ subsystem name := by
  cases hl : e.desc.lookup (BuildFQName namespace_ subsystem name) with
  | some d =>
    rw [addDesc_of_present e subsystem name d hl]
    constructor
    · exact Or.inl
    · rintro (h | rfl)
      · exact h
      · exact List.mem_map.mpr ⟨(_, d), mem_of_lookup_eq_some hl, rfl⟩
  | none =>
    rw [addDesc_of_absent e subsystem name hl]
    simp only [List.map_cons, List.mem_cons]
    exact or_comm

theorem mem_keys_foldl_addPair (ps : List (String × String)) (e : Exporter) (k : String) :
    k ∈ (ps.foldl addPair e).desc.map Prod.fst ↔
      k ∈ e.desc.map Prod.fst ∨ ∃ p ∈ ps, k = BuildFQName namespace_ p.1 p.2 := by
  induction ps generalizing e with
  | nil => simp
  | cons q rest ih =>
    simp only [List.foldl_cons, ih, addPair, mem_keys_addDesc, List.mem_cons, exists_eq_or_imp,
      or_assoc]

/-- On a fresh exporter the calls `ps` leave as many entries as there are
distinct fully qualified names among `ps`. -/
theorem length_foldl_addPair_fresh (ps : List (String × String)) :
    (ps.foldl addPair NewExporter).desc.length =
      ((ps.map fun p => BuildFQName namespace_ p.1 p.2).dedup).length := by
  have hnd := wellFormed_foldl_addPair ps NewExporter good_NewExporter.1
  have hperm : ((ps.foldl addPair NewExporter).desc.map Prod.fst).Perm
      ((ps.map fun p => BuildFQName namespace_ p.1 p.2).dedup) := by
    rw [List.perm_ext_iff_of_nodup hnd (List.nodup_dedup _)]
    intro k
    constructor
    · intro hk
      rcases (mem_keys_foldl_addPair ps NewExporter k).mp hk with h | ⟨p, hp, rfl⟩
      · simp [NewExporter] at h
      · exact List.mem_dedup.mpr (List.mem_map.mpr ⟨p, hp, rfl⟩)
    · intro hk
      obtain ⟨p, hp, hpk⟩ := List.mem_map.mp (List.mem_dedup.mp hk)
      exact (mem_keys_foldl_addPair ps NewExporter k).mpr (Or.inr ⟨p, hp, hpk.symm⟩)
  have hlen := hperm.length_eq
  simpa using hlen

/-! ## What the passes do to the registry -/

/-- A relation that every run of the body satisfies, and that is reflexive and
transitive, holds between the start and the end of the loop. -/
theorem forEach_state_rel {α σ : Type} (R : σ → σ → Prop) (hrefl : ∀ s, R s s)
    (htrans : ∀ a b c, R a b → R b c → R a c) (body : σ → α → Outcome σ)
    (hbody : ∀ s a, R s (body s a).state) (xs : List α) (s : σ) :
    R s (forEach body xs s).state := by
  induction xs generalizing s with
  | nil => exact hrefl s
  | cons a rest ih =>
    have h1 := hbody s a
    simp only [forEach]
    cases hb : body s a with
    | done s' =>
      rw [hb] at h1
      exact htrans _ _ _ h1 (ih s')
    | failed f s' =>
      rw [hb] at h1
      exact h1

theorem describeMessage_state (s : St Desc) (message : JVal) :
    (∃ m, message = JVal.obj m ∧
      (describeMessage s message).state = ⟨(describePairs m).foldl addPair s.e, s.ch⟩) ∨
    (describeMessage s message).state = s := by
  cases message with
  | obj m =>
    left
    exact ⟨m, rfl, by simp [describeMessage, Outcome.state, describeWalk_eq]⟩
  | _ => right; rfl

theorem Describe_state_e (s : St Desc) (regions : List Region) :
    (Describe s regions).state.e = (forEach describeRegion regions s).state.e := by
  unfold Describe
  cases forEach describeRegion regions s <;> rfl

theorem updateMetric_state_e (s : St Metric) (region instanceID subsystem name : String)
    (value : Float64) :
    (updateMetric s region instanceID subsystem name value).state.e = s.e := by
  simp only [updateMetric]
  cases MustNewConstMetric (List.lookup (BuildFQName namespace_ subsystem name) s.e.desc)
    ValueType.UntypedValue value [region, instanceID] <;> rfl

theorem good_describeMessage (s : St Desc) (message : JVal)
    (h : WellFormed s.e ∧ Canonical s.e) :
    WellFormed (describeMessage s message).state.e ∧
      Canonical (describeMessage s message).state.e := by
  rcases describeMessage_state s message with ⟨m, _, hm⟩ | hm
  · rw [hm]
    exact ⟨wellFormed_foldl_addPair _ _ h.1, canonical_foldl_addPair _ _ h.2⟩
  · rw [hm]
    exact h

theorem good_describeLogStream (s : St Desc) (out : LogEvents)
    (h : WellFormed s.e ∧ Canonical s.e) :
    WellFormed (describeLogStream s out).state.e ∧
      Canonical (describeLogStream s out).state.e := by
  unfold describeLogStream
  split
  · exact h
  · exact h
  · exact h
  · exact good_describeMessage s _ h

theorem good_describeRegion (s : St Desc) (region : Region)
    (h : WellFormed s.e ∧ Canonical s.e) :
    WellFormed (describeRegion s region).state.e ∧
      Canonical (describeRegion s region).state.e := by
  unfold describeRegion
  split
  · exact h
  · exact forEach_state_rel
      (fun a b : St Desc => WellFormed a.e ∧ Canonical a.e → WellFormed b.e ∧ Canonical b.e)
      (fun _ h => h) (fun _ _ _ h1 h2 h => h2 (h1 h)) describeLogStream
      good_describeLogStream _ s h

theorem good_Describe (s : St Desc) (regions : List Region)
    (h : WellFormed s.e ∧ Canonical s.e) :
    WellFormed (Describe s regions).state.e ∧ Canonical (Describe s regions).state.e := by
  rw [Describe_state_e]
  exact forEach_state_rel
    (fun a b : St Desc => WellFormed a.e ∧ Canonical a.e → WellFormed b.e ∧ Canonical b.e)
    (fun _ h => h) (fun _ _ _ h1 h2 h => h2 (h1 h)) describeRegion good_describeRegion _ s h

theorem specIdentity_of_ne (subsystem leafName : String) (hn : leafName ≠ "") :
    specIdentity subsystem leafName = ToLower (BuildFQName namespace_ subsystem leafName) := by
  by_cases hs : subsystem = ""
  · subst hs
    rw [BuildFQName_empty_subsystem leafName hn]
    simp [specIdentity, List.filter, hn, namespace_ne_empty, String.intercalate,
      String.intercalate.go]
  · rw [BuildFQName_nonempty subsystem leafName hs hn]
    simp [specIdentity, List.filter, hn, hs, namespace_ne_empty, String.intercalate,
      String.intercalate.go]

/-! ## The two walks reach the same leaves -/

theorem describeInnerPairs_eq (key : String) (kv : String × JVal) :
    describeInnerPairs key kv = (collectInnerTriples key kv).map (fun t => (t.1, t.2.1)) := by
  unfold describeInnerPairs collectInnerTriples
  cases kv.2 <;> rfl

theorem describeElementInnerPairs_eq (key : String) (i : Nat) (kv : String × JVal) :
    describeElementInnerPairs key i kv =
      (collectElementInnerTriples key i kv).map (fun t => (t.1, t.2.1)) := by
  unfold describeElementInnerPairs collectElementInnerTriples
  cases kv.2 <;> rfl

theorem describeElementPairs_eq (key : String) (iu : Nat × JVal) :
    describeElementPairs key iu =
      (collectElementTriples key iu).map (fun t => (t.1, t.2.1)) := by
  unfold describeElementPairs collectElementTriples
  cases iu.2 <;> simp only [List.map_nil, List.map_flatMap]
  congr 1
  funext kv
  exact describeElementInnerPairs_eq key iu.1 kv

theorem describeEntryPairs_eq (kv : String × JVal) :
    describeEntryPairs kv = (collectEntryTriples kv).map (fun t => (t.1, t.2.1)) := by
  unfold describeEntryPairs collectEntryTriples
  cases kv.2 <;> simp only [List.map_nil, List.map_flatMap, List.map_cons]
  · congr 1
    funext iu
    exact describeElementPairs_eq kv.1 iu
  · congr 1
    funext x
    exact describeInnerPairs_eq kv.1 x

/-- The calls of `addDesc` in the walk of `Describe` are the calls of
`updateMetric` in the walk of `Collect`, without the value. -/
theorem describePairs_eq (m : List (String × JVal)) :
    describePairs m = (collectTriples m).map (fun t => (t.1, t.2.1)) := by
  unfold describePairs collectTriples
  rw [List.map_flatMap]
  congr 1
  funext kv
  exact describeEntryPairs_eq kv

theorem mem_describePairs (m : List (String × JVal)) (p : String × String) :
    p ∈ describePairs m ↔ ∃ v, (p.1, p.2, v) ∈ collectTriples m := by
  rw [describePairs_eq, List.mem_map]
  constructor
  · rintro ⟨⟨a, b, v⟩, hmem, rfl⟩
    exact ⟨v, hmem⟩
  · rintro ⟨v, hmem⟩
    exact ⟨(p.1, p.2, v), hmem, rfl⟩

/-! ## Discovery followed by collection -/

theorem collectMessage_of_instanceID (regionID : String) (s : St Metric)
    (m : List (String × JVal)) (h : ∃ iid, m.lookup "instanceID" = some (JVal.str iid)) :
    collectMessage regionID s (JVal.obj m) =
      forEach (updateTriple regionID (instanceIDOf m)) (collectTriples m) s := by
  obtain ⟨iid, hiid⟩ := h
  simp only [collectMessage, instanceIDOf, hiid]
  exact collectWalk_eq regionID iid m s

theorem descFor_variableLabels (k : String) :
    (descFor k).variableLabels = ["region", "instanceID"] := rfl

theorem descFor_fqName (k : String) : (descFor k).fqName = ToLower k := rfl

/-- The descriptor `addDesc` stores carries an error exactly when its
lower-cased name is not a valid metric name. -/
theorem descFor_err (k : String) :
    (descFor k).err =
      if IsValidMetricName (ToLower k) = true then none
      else some DescError.invalidMetricName := by
  by_cases hv : IsValidMetricName (ToLower k) = true
  · simp only [descFor, NewDesc, hv, if_true]
    decide
  · simp only [Bool.not_eq_true] at hv
    simp [descFor, NewDesc, hv]

theorem descFor_err_of_valid (k : String) (hv : IsValidMetricName (ToLower k) = true) :
    (descFor k).err = none := by
  rw [descFor_err, if_pos hv]

theorem descFor_err_of_invalid (k : String) (hv : IsValidMetricName (ToLower k) = false) :
    (descFor k).err = some DescError.invalidMetricName := by
  rw [descFor_err, if_neg (by simp [hv])]

/-- With the key of the leaf holding the descriptor `addDesc` stores there and
a valid metric name, `updateMetric` sends the sample of the leaf. -/
theorem updateMetric_done (s : St Metric) (region instanceID subsystem name : String)
    (value : Float64)
    (h : s.e.desc.lookup (BuildFQName namespace_ subsystem name) =
      some (descFor (BuildFQName namespace_ subsystem name)))
    (hv : IsValidMetricName (ToLower (BuildFQName namespace_ subsystem name)) = true) :
    updateMetric s region instanceID subsystem name value =
      Outcome.done ⟨s.e, s.ch ++ [sampleOf region instanceID (subsystem, name, value)]⟩ := by
  simp only [updateMetric, h, MustNewConstMetric, descFor_err_of_valid _ hv,
    descFor_variableLabels, List.length_cons, List.length_nil, ne_eq, not_true_eq_false,
    if_false, sampleOf]

/-- With the key of the leaf holding a descriptor whose name is not a valid
metric name, `updateMetric` stops the run and sends nothing. -/
theorem updateMetric_invalid (s : St Metric) (region instanceID subsystem name : String)
    (value : Float64)
    (h : s.e.desc.lookup (BuildFQName namespace_ subsystem name) =
      some (descFor (BuildFQName namespace_ subsystem name)))
    (hv : IsValidMetricName (ToLower (BuildFQName namespace_ subsystem name)) = false) :
    updateMetric s region instanceID subsystem name value =
      Outcome.failed Failure.invalidDescriptor s := by
  simp only [updateMetric, h, MustNewConstMetric, descFor_err_of_invalid _ hv]

/-- When the key of every leaf holds the descriptor `addDesc` stores there and
every name is a valid metric name, every call of `updateMetric` sends its
sample. -/
theorem forEach_updateTriple_done (regionID instanceID : String) (ts : List Triple)
    (e : Exporter) (ch : List Metric)
    (h : ∀ t ∈ ts, e.desc.lookup (BuildFQName namespace_ t.1 t.2.1) =
        some (descFor (BuildFQName namespace_ t.1 t.2.1)) ∧
      IsValidMetricName (ToLower (BuildFQName namespace_ t.1 t.2.1)) = true) :
    forEach (updateTriple regionID instanceID) ts ⟨e, ch⟩ =
      Outcome.done ⟨e, ch ++ ts.map (sampleOf regionID instanceID)⟩ := by
  induction ts generalizing ch with
  | nil => simp [forEach]
  | cons t rest ih =>
    have ht := h t (List.mem_cons_self t rest)
    have hrest := ih (ch ++ [sampleOf regionID instanceID t])
      (fun x hx => h x (List.mem_cons_of_mem t hx))
    simp only [forEach, updateTriple]
    rw [updateMetric_done ⟨e, ch⟩ regionID instanceID t.1 t.2.1 t.2.2 ht.1 ht.2]
    simp only
    rw [hrest]
    simp

theorem collectStreams_done (regionID : String) (ms : List (List (String × JVal)))
    (e : Exporter) (ch : List Metric)
    (hid : ∀ m ∈ ms, ∃ iid, m.lookup "instanceID" = some (JVal.str iid))
    (h : ∀ m ∈ ms, ∀ t ∈ collectTriples m,
      e.desc.lookup (BuildFQName namespace_ t.1 t.2.1) =
        some (descFor (BuildFQName namespace_ t.1 t.2.1)) ∧
      IsValidMetricName (ToLower (BuildFQName namespace_ t.1 t.2.1)) = true) :
    forEach (collectLogStream regionID)
        (ms.map fun m => LogEvents.events [some (JVal.obj m)]) ⟨e, ch⟩ =
      Outcome.done ⟨e, ch ++ ms.flatMap (snapshotSamples regionID)⟩ := by
  induction ms generalizing ch with
  | nil => simp [forEach]
  | cons m rest ih =>
    simp only [List.map_cons, forEach, collectLogStream]
    rw [collectMessage_of_instanceID regionID _ m (hid m (List.mem_cons_self m rest)),
      forEach_updateTriple_done regionID (instanceIDOf m) (collectTriples m) e ch
        (h m (List.mem_cons_self m rest))]
    simp only
    rw [ih _ (fun x hx => hid x (List.mem_cons_of_mem m hx))
      (fun x hx => h x (List.mem_cons_of_mem m hx))]
    simp [List.flatMap_cons, snapshotSamples]

theorem collectRegions_done (rs : List (String × List (List (String × JVal))))
    (e : Exporter) (ch : List Metric)
    (hid : ∀ r ∈ rs, ∀ m ∈ r.2, ∃ iid, m.lookup "instanceID" = some (JVal.str iid))
    (h : ∀ r ∈ rs, ∀ m ∈ r.2, ∀ t ∈ collectTriples m,
      e.desc.lookup (BuildFQName namespace_ t.1 t.2.1) =
        some (descFor (BuildFQName namespace_ t.1 t.2.1)) ∧
      IsValidMetricName (ToLower (BuildFQName namespace_ t.1 t.2.1)) = true) :
    Collect ⟨e, ch⟩ (rs.map regionOfSnapshots) =
      Outcome.done ⟨e, ch ++ rs.flatMap regionSamples⟩ := by
  unfold Collect
  induction rs generalizing ch with
  | nil => simp [forEach]
  | cons r rest ih =>
    simp only [List.map_cons, forEach, collectRegion, regionOfSnapshots]
    rw [collectStreams_done r.1 r.2 e ch (hid r (List.mem_cons_self r rest))
      (h r (List.mem_cons_self r rest))]
    simp only
    rw [ih _ (fun x hx => hid x (List.mem_cons_of_mem r hx))
      (fun x hx => h x (List.mem_cons_of_mem r hx))]
    simp [List.flatMap_cons, regionSamples]

theorem describeStreams_done (ms : List (List (String × JVal))) (s : St Desc) :
    forEach describeLogStream (ms.map fun m => LogEvents.events [some (JVal.obj m)]) s =
      Outcome.done ⟨(ms.flatMap describePairs).foldl addPair s.e, s.ch⟩ := by
  induction ms generalizing s with
  | nil => simp [forEach]
  | cons m rest ih =>
    simp only [List.map_cons, forEach, describeLogStream, describeMessage]
    rw [ih]
    simp [List.flatMap_cons, List.foldl_append, describeWalk_eq]

theorem describeRegions_done (rs : List (String × List (List (String × JVal))))
    (s : St Desc) :
    forEach describeRegion (rs.map regionOfSnapshots) s =
      Outcome.done
        ⟨(rs.flatMap fun r => r.2.flatMap describePairs).foldl addPair s.e, s.ch⟩ := by
  induction rs generalizing s with
  | nil => simp [forEach]
  | cons r rest ih =>
    simp only [List.map_cons, forEach, describeRegion, regionOfSnapshots]
    rw [describeStreams_done]
    simp only
    rw [ih]
    simp [List.flatMap_cons, List.foldl_append]

theorem descriptorNames_eq_of_canonical (e : Exporter) (h : Canonical e) :
    descriptorNames e = (e.desc.map Prod.fst).map ToLower := by
  unfold descriptorNames
  rw [List.map_map]
  apply List.map_congr_left
  intro kd hkd
  have hd := h kd.1 kd.2 hkd
  simp only [Function.comp_apply]
  rw [hd]
  rfl

/-- After the calls `ps` on a fresh exporter, the key of each of their leaves
occurs once and holds the descriptor `addDesc` stores there. -/
theorem registered_of_mem (ps : List (String × String)) (p : String × String) (hp : p ∈ ps) :
    ((ps.foldl addPair NewExporter).desc.map Prod.fst).count
        (BuildFQName namespace_ p.1 p.2) = 1 ∧
    (ps.foldl addPair NewExporter).desc.lookup (BuildFQName namespace_ p.1 p.2) =
      some (descFor (BuildFQName namespace_ p.1 p.2)) := by
  obtain ⟨d, hd⟩ := lookup_foldl_addPair_of_mem ps NewExporter p hp
  have hwf := wellFormed_foldl_addPair ps NewExporter good_NewExporter.1
  have hc := canonical_foldl_addPair ps NewExporter good_NewExporter.2
  have hdd := hc _ d (mem_of_lookup_eq_some hd)
  subst hdd
  exact ⟨count_keys_eq_one hwf hd, hd⟩

/-! ## Claims -/

/-- C1: for a snapshot whose root is an object with a string `instanceID`, the
walk of `Collect` runs `updateMetric` on the triples of `collectTriples` in
order (a call that panics ends the run), and these triples are exactly:
`("", k, v)` for a top-level number, `(k, k2, v)` for a number directly in a
top-level object, and `(k, "<i>_<k2>", v)` for a number directly in an object at
index `i` of a top-level array. The snapshot `snapshotDb1` yields the four
triples of `freeStorage`, `cpu.user`, `cpu.system` and `disks[0].readIOPS`. -/
theorem collect_walk_triples (regionID instanceID : String) (s : St Metric)
    (m : List (String × JVal)) (h : m.lookup "instanceID" = some (JVal.str instanceID)) :
    collectMessage regionID s (JVal.obj m) =
        forEach (updateTriple regionID instanceID) (collectTriples m) s ∧
    (∀ t : Triple, t ∈ collectTriples m ↔
      (∃ k v, (k, JVal.num v) ∈ m ∧ t = ("", k, v)) ∨
      (∃ k inner k2 v, (k, JVal.obj inner) ∈ m ∧ (k2, JVal.num v) ∈ inner ∧ t = (k, k2, v)) ∨
      (∃ k xs i inner k2 v, (k, JVal.arr xs) ∈ m ∧ xs[i]? = some (JVal.obj inner) ∧
        (k2, JVal.num v) ∈ inner ∧ t = (k, Itoa i ++ "_" ++ k2, v))) ∧
    collectTriples snapshotDb1 =
      [("", "freeStorage", ⟨0x4045000000000000⟩), ("cpu", "user", ⟨0x4014666666666666⟩),
       ("cpu", "system", ⟨0x3ff3333333333333⟩), ("disks", "0_readIOPS", ⟨0x4008000000000000⟩)] := by
  refine ⟨?_, mem_collectTriples m, by decide⟩
  simp only [collectMessage, h]
  exact collectWalk_eq regionID instanceID m s

/-- C1 at the snapshot `snapshotDb1`, collected for region "us-east-1" with an
empty channel and an empty registry. -/
theorem collect_walk_triples_witness :
    snapshotDb1.lookup "instanceID" = some (JVal.str "db-1") ∧
    (collectMessage "us-east-1" ⟨NewExporter, []⟩ (JVal.obj snapshotDb1) =
        forEach (updateTriple "us-east-1" "db-1") (collectTriples snapshotDb1)
          ⟨NewExporter, []⟩ ∧
    (∀ t : Triple, t ∈ collectTriples snapshotDb1 ↔
      (∃ k v, (k, JVal.num v) ∈ snapshotDb1 ∧ t = ("", k, v)) ∨
      (∃ k inner k2 v, (k, JVal.obj inner) ∈ snapshotDb1 ∧ (k2, JVal.num v) ∈ inner ∧
        t = (k, k2, v)) ∨
      (∃ k xs i inner k2 v, (k, JVal.arr xs) ∈ snapshotDb1 ∧ xs[i]? = some (JVal.obj inner) ∧
        (k2, JVal.num v) ∈ inner ∧ t = (k, Itoa i ++ "_" ++ k2, v))) ∧
    collectTriples snapshotDb1 =
      [("", "freeStorage", ⟨0x4045000000000000⟩), ("cpu", "user", ⟨0x4014666666666666⟩),
       ("cpu", "system", ⟨0x3ff3333333333333⟩), ("disks", "0_readIOPS", ⟨0x4008000000000000⟩)]) :=
  ⟨rfl, collect_walk_triples "us-east-1" "db-1" ⟨NewExporter, []⟩ snapshotDb1 rfl⟩

/-- C2 (counterexample): the distinct pairs `("", "cpu_user")` and
`("cpu", "user")` get the same fully qualified name, hence the same lower-cased
descriptor name, and the second `addDesc` finds the entry of the first. The
distinct pairs `("", "A")` and `("", "a")` get different fully qualified names
with the same lower-casing, hence the same identity. -/
theorem fqName_collision :
    (("", "cpu_user") : String × String) ≠ ("cpu", "user") ∧
    BuildFQName namespace_ "" "cpu_user" = BuildFQName namespace_ "cpu" "user" ∧
    ToLower (BuildFQName namespace_ "" "cpu_user") =
      ToLower (BuildFQName namespace_ "cpu" "user") ∧
    addDesc (addDesc NewExporter "" "cpu_user") "cpu" "user" =
      addDesc NewExporter "" "cpu_user" ∧
    (("", "A") : String × String) ≠ ("", "a") ∧
    BuildFQName namespace_ "" "A" ≠ BuildFQName namespace_ "" "a" ∧
    ToLower (BuildFQName namespace_ "" "A") = ToLower (BuildFQName namespace_ "" "a") := by
  decide

/-- C2 (amended): the identity built by `addDesc` and `updateMetric`, the
lower-cased fully qualified name, tells two pairs apart up to letter case when
they have the same subsystem, or when both are separable (non-empty name, no
`_` in the subsystem, and no `_` in the name when the subsystem is empty):
equal identities come only from subsystems with the same lower-casing and
names with the same lower-casing. Hence such pairs written without upper-case
letters have different identities when they are different. -/
theorem identity_injective_up_to_case (s1 n1 s2 n2 : String)
    (hdom : s1 = s2 ∨ (Separable s1 n1 ∧ Separable s2 n2))
    (h : ToLower (BuildFQName namespace_ s1 n1) = ToLower (BuildFQName namespace_ s2 n2)) :
    (ToLower s1 = ToLower s2 ∧ ToLower n1 = ToLower n2) ∧
    (ToLower s1 = s1 → ToLower n1 = n1 → ToLower s2 = s2 → ToLower n2 = n2 →
      s1 = s2 ∧ n1 = n2) := by
  have hmain : ToLower s1 = ToLower s2 ∧ ToLower n1 = ToLower n2 := by
    rw [ToLower_BuildFQName, ToLower_BuildFQName] at h
    rcases hdom with rfl | ⟨d1, d2⟩
    · exact ⟨rfl, BuildFQName_inj_name _ _ _ h⟩
    · exact BuildFQName_inj_separable _ _ _ _ (separable_ToLower s1 n1 d1)
        (separable_ToLower s2 n2 d2) h
  refine ⟨hmain, fun h1 h2 h3 h4 => ?_⟩
  rw [h1, h3, h2, h4] at hmain
  exact hmain

/-- C2 (amended) at the separable pairs `("cpu", "User")` and `("CPU", "user")`,
which have the same identity. -/
theorem identity_injective_up_to_case_witness :
    (("cpu" : String) = "CPU" ∨ (Separable "cpu" "User" ∧ Separable "CPU" "user")) ∧
    ToLower (BuildFQName namespace_ "cpu" "User") =
      ToLower (BuildFQName namespace_ "CPU" "user") ∧
    (ToLower "cpu" = ToLower "CPU" ∧ ToLower "User" = ToLower "user") :=
  ⟨Or.inr ⟨by unfold Separable; decide, by unfold Separable; decide⟩, by decide,
    (identity_injective_up_to_case "cpu" "User" "CPU" "user"
      (Or.inr ⟨by unfold Separable; decide, by unfold Separable; decide⟩) (by decide)).1⟩

/-- C3 (the code at the failing input): `Describe` runs on a fresh exporter over
one stream holding `snapshotDb1`; `Collect` then meets the same snapshot with one
more number, `swap`. The lookup of its key finds nothing and the run stops with
a nil dereference. -/
theorem collect_registry_miss :
    (Describe ⟨NewExporter, []⟩ [regionOf "us-east-1" snapshotDb1]).failure = none ∧
    (Describe ⟨NewExporter, []⟩ [regionOf "us-east-1" snapshotDb1]).state.e.desc.lookup
      (BuildFQName namespace_ "" "swap") = none ∧
    (Collect ⟨(Describe ⟨NewExporter, []⟩ [regionOf "us-east-1" snapshotDb1]).state.e, []⟩
      [regionOf "us-east-1" snapshotDb1Swap]).failure = some Failure.nilDereference := by
  decide

/-- C4 (counterexample): after `addDesc("", "A")` and `addDesc("", "a")` the map
holds two descriptors, and both carry the name `rdsosmetrics_a`. -/
theorem two_descriptors_one_lowercase_name :
    (addDesc (addDesc NewExporter "" "A") "" "a").desc =
      [("rdsosmetrics_a", descFor "rdsosmetrics_a"),
       ("rdsosmetrics_A", descFor "rdsosmetrics_A")] ∧
    (descFor "rdsosmetrics_a").fqName = "rdsosmetrics_a" ∧
    (descFor "rdsosmetrics_A").fqName = "rdsosmetrics_a" := by
  decide

/-- C4 (amended): after any sequence of `addDesc` calls on a fresh exporter no
key (the fully qualified name, letter case kept) occurs twice in the map, the
descriptor under a key carries the lower-cased key as its name, the keys are
exactly the fully qualified names of the leaves passed, every leaf passed finds
exactly one entry under its key, and the number of descriptors is the number of
distinct fully qualified names among the leaves passed. The first two hold as
well for the registry in which any run of `Describe` on a fresh exporter ends. -/
theorem one_descriptor_per_key (calls : List (String × String)) (regions : List Region) :
    (WellFormed (calls.foldl addPair NewExporter) ∧
      (∀ k d, (k, d) ∈ (calls.foldl addPair NewExporter).desc →
        d = descFor k ∧ d.fqName = ToLower k) ∧
      (∀ k, k ∈ (calls.foldl addPair NewExporter).desc.map Prod.fst ↔
        ∃ p ∈ calls, k = BuildFQName namespace_ p.1 p.2) ∧
      (∀ p ∈ calls,
        ((calls.foldl addPair NewExporter).desc.map Prod.fst).count
            (BuildFQName namespace_ p.1 p.2) = 1 ∧
          (calls.foldl addPair NewExporter).desc.lookup (BuildFQName namespace_ p.1 p.2) =
            some (descFor (BuildFQName namespace_ p.1 p.2))) ∧
      (calls.foldl addPair NewExporter).desc.length =
        ((calls.map fun p => BuildFQName namespace_ p.1 p.2).dedup).length) ∧
    (WellFormed (Describe ⟨NewExporter, []⟩ regions).state.e ∧
      ∀ k d, (k, d) ∈ (Describe ⟨NewExporter, []⟩ regions).state.e.desc →
        d = descFor k ∧ d.fqName = ToLower k) := by
  have h1 := wellFormed_foldl_addPair calls NewExporter good_NewExporter.1
  have h2 := canonical_foldl_addPair calls NewExporter good_NewExporter.2
  have h3 := good_Describe ⟨NewExporter, []⟩ regions good_NewExporter
  refine ⟨⟨h1, fun k d hmem => ?_, fun k => ?_, fun p hp => registered_of_mem calls p hp,
    length_foldl_addPair_fresh calls⟩, h3.1, fun k d hmem => ?_⟩
  · have hd := h2 k d hmem
    subst hd
    exact ⟨rfl, rfl⟩
  · rw [mem_keys_foldl_addPair]
    simp [NewExporter]
  · have hd := h3.2 k d hmem
    subst hd
    exact ⟨rfl, rfl⟩

/-- C6 (counterexample): for subsystem `cpu` and an empty leaf name, `addDesc`
creates a descriptor whose name is the empty string, while the join of the
non-empty segments is `rdsosmetrics_cpu`. -/
theorem empty_leaf_name_identity :
    (addDesc NewExporter "cpu" "").desc = [("", descFor "")] ∧
    (descFor "").fqName = "" ∧
    specIdentity "cpu" "" = "rdsosmetrics_cpu" ∧
    (descFor (BuildFQName namespace_ "cpu" "")).fqName ≠ specIdentity "cpu" "" ∧
    (descFor (BuildFQName namespace_ "cpu" "")).fqName ≠
      ToLower ("rdsosmetrics_" ++ "cpu" ++ "_" ++ "") := by
  decide

/-- C6 (amended): when `addDesc` creates a descriptor (the key is absent) for a
non-empty leaf name, its name is the lower-cased join by `_` of the non-empty
segments among the namespace, the subsystem and the leaf name: with an empty
subsystem the lower-cased `rdsosmetrics_<leaf>`, otherwise the lower-cased
`rdsosmetrics_<subsystem>_<leaf>`. For an empty leaf name the name is empty. -/
theorem addDesc_identity (e : Exporter) (subsystem name : String)
    (h : e.desc.lookup (BuildFQName namespace_ subsystem name) = none) :
    (∃ d, (addDesc e subsystem name).desc = (BuildFQName namespace_ subsystem name, d) :: e.desc ∧
      (name ≠ "" → d.fqName = specIdentity subsystem name) ∧
      (name ≠ "" → subsystem = "" → d.fqName = ToLower ("rdsosmetrics_" ++ name)) ∧
      (name ≠ "" → subsystem ≠ "" →
        d.fqName = ToLower ("rdsosmetrics_" ++ subsystem ++ "_" ++ name)) ∧
      (name = "" → d.fqName = "")) := by
  refine ⟨descFor (BuildFQName namespace_ subsystem name), ?_, ?_, ?_, ?_, ?_⟩
  · rw [addDesc_of_absent e subsystem name h]
  · intro hn
    rw [specIdentity_of_ne subsystem name hn]
    rfl
  · intro hn hs
    subst hs
    rw [BuildFQName_empty_subsystem name hn]
    rfl
  · intro hn hs
    rw [BuildFQName_nonempty subsystem name hs hn]
    rfl
  · intro hn
    subst hn
    rw [BuildFQName_empty_name]
    rfl

/-- C6 (amended) at `addDesc("", "freeStorage")` on a fresh exporter. -/
theorem addDesc_identity_witness :
    NewExporter.desc.lookup (BuildFQName namespace_ "" "freeStorage") = none ∧
    (∃ d, (addDesc NewExporter "" "freeStorage").desc =
        (BuildFQName namespace_ "" "freeStorage", d) :: NewExporter.desc ∧
      (("freeStorage" : String) ≠ "" → d.fqName = specIdentity "" "freeStorage") ∧
      (("freeStorage" : String) ≠ "" → ("" : String) = "" →
        d.fqName = ToLower ("rdsosmetrics_" ++ "freeStorage")) ∧
      (("freeStorage" : String) ≠ "" → ("" : String) ≠ "" →
        d.fqName = ToLower ("rdsosmetrics_" ++ "" ++ "_" ++ "freeStorage")) ∧
      (("freeStorage" : String) = "" → d.fqName = "")) :=
  ⟨rfl, addDesc_identity NewExporter "" "freeStorage" rfl⟩

/-- C7 (counterexample): for `hyphenRegions` the descriptor registered for
`free-storage` carries an error, because `rdsosmetrics_free-storage` is not a
valid metric name, and `Collect` stops on it without sending a sample. For
`caseRegions`, where the leaf `A` occurs in two snapshots, the registry holds
two descriptors named `rdsosmetrics_a`. -/
theorem collection_fails_or_identity_doubles :
    (Describe ⟨NewExporter, []⟩ (hyphenRegions.map regionOfSnapshots)).failure = none ∧
    (Describe ⟨NewExporter, []⟩ (hyphenRegions.map regionOfSnapshots)).state.e.desc.map
        (fun kd => (kd.1, kd.2.fqName, kd.2.err)) =
      [("rdsosmetrics_free-storage", "rdsosmetrics_free-storage",
        some DescError.invalidMetricName)] ∧
    Collect ⟨(Describe ⟨NewExporter, []⟩ (hyphenRegions.map regionOfSnapshots)).state.e, []⟩
        (hyphenRegions.map regionOfSnapshots) =
      Outcome.failed Failure.invalidDescriptor
        ⟨(Describe ⟨NewExporter, []⟩ (hyphenRegions.map regionOfSnapshots)).state.e, []⟩ ∧
    descriptorNames (Describe ⟨NewExporter, []⟩ (caseRegions.map regionOfSnapshots)).state.e =
      ["rdsosmetrics_a", "rdsosmetrics_a"] ∧
    specIdentity "" "A" = "rdsosmetrics_a" := by
  decide

/-- C7 (amended): regions whose snapshots all carry a string `instanceID`,
whose leaves all have a valid lower-cased metric name, and among whose leaves
no two different fully qualified names have the same lower-casing, are first
described on a fresh exporter, then collected. `Describe` does not fail and,
for every leaf of every snapshot, exactly one descriptor of the registry
carries the identity of the leaf (its lower-cased fully qualified name); it is
the entry under the key of the leaf. `Collect` then runs to its end and sends
exactly one sample per leaf of each snapshot of each region, in the order of
the walk: bound to that descriptor, with the value of the leaf and the labels
region, instanceID. For `twoRegions` the registry holds the single descriptor
of `freeStorage` and two samples are sent. -/
theorem discovery_then_collection (rs : List (String × List (List (String × JVal))))
    (hid : ∀ r ∈ rs, ∀ m ∈ r.2, ∃ iid, m.lookup "instanceID" = some (JVal.str iid))
    (hvalid : ∀ r ∈ rs, ∀ m ∈ r.2, ∀ t ∈ collectTriples m,
      IsValidMetricName (ToLower (BuildFQName namespace_ t.1 t.2.1)) = true)
    (hcase : ∀ r ∈ rs, ∀ m ∈ r.2, ∀ t ∈ collectTriples m,
      ∀ r' ∈ rs, ∀ m' ∈ r'.2, ∀ t' ∈ collectTriples m',
        ToLower (BuildFQName namespace_ t.1 t.2.1) =
            ToLower (BuildFQName namespace_ t'.1 t'.2.1) →
          BuildFQName namespace_ t.1 t.2.1 = BuildFQName namespace_ t'.1 t'.2.1) :
    (Describe ⟨NewExporter, []⟩ (rs.map regionOfSnapshots)).failure = none ∧
    (∀ r ∈ rs, ∀ m ∈ r.2, ∀ t ∈ collectTriples m,
      ((descriptorNames (Describe ⟨NewExporter, []⟩ (rs.map regionOfSnapshots)).state.e).count
          (ToLower (BuildFQName namespace_ t.1 t.2.1)) = 1 ∧
        ((Describe ⟨NewExporter, []⟩ (rs.map regionOfSnapshots)).state.e.desc.map
          Prod.fst).count (BuildFQName namespace_ t.1 t.2.1) = 1 ∧
        (Describe ⟨NewExporter, []⟩ (rs.map regionOfSnapshots)).state.e.desc.lookup
          (BuildFQName namespace_ t.1 t.2.1) =
            some (NewDesc (ToLower (BuildFQName namespace_ t.1 t.2.1)) helpText
              ["region", "instanceID"] []))) ∧
    Collect ⟨(Describe ⟨NewExporter, []⟩ (rs.map regionOfSnapshots)).state.e, []⟩
        (rs.map regionOfSnapshots) =
      Outcome.done ⟨(Describe ⟨NewExporter, []⟩ (rs.map regionOfSnapshots)).state.e,
        rs.flatMap regionSamples⟩ ∧
    (Describe ⟨NewExporter, []⟩ (twoRegions.map regionOfSnapshots)).state.e.desc =
      [("rdsosmetrics_freeStorage",
        NewDesc "rdsosmetrics_freestorage" helpText ["region", "instanceID"] [])] ∧
    twoRegions.flatMap regionSamples =
      [{ desc := NewDesc "rdsosmetrics_freestorage" helpText ["region", "instanceID"] [],
         valType := ValueType.UntypedValue, val := ⟨0x4045000000000000⟩,
         labelValues := ["us-east-1", "db-1"] },
       { desc := NewDesc "rdsosmetrics_freestorage" helpText ["region", "instanceID"] [],
         valType := ValueType.UntypedValue, val := ⟨0x401c000000000000⟩,
         labelValues := ["eu-west-1", "db-2"] }] := by
  have hD : Describe ⟨NewExporter, []⟩ (rs.map regionOfSnapshots) =
      Outcome.done ⟨(rs.flatMap fun r => r.2.flatMap describePairs).foldl addPair NewExporter,
        ((rs.flatMap fun r => r.2.flatMap describePairs).foldl addPair NewExporter).desc.map
          Prod.snd⟩ := by
    simp only [Describe, describeRegions_done, List.nil_append]
  have hreg : ∀ r ∈ rs, ∀ m ∈ r.2, ∀ t ∈ collectTriples m,
      (((rs.flatMap fun r => r.2.flatMap describePairs).foldl addPair NewExporter).desc.map
          Prod.fst).count (BuildFQName namespace_ t.1 t.2.1) = 1 ∧
      ((rs.flatMap fun r => r.2.flatMap describePairs).foldl addPair NewExporter).desc.lookup
        (BuildFQName namespace_ t.1 t.2.1) =
          some (descFor (BuildFQName namespace_ t.1 t.2.1)) := by
    intro r hr m hm t ht
    refine registered_of_mem _ (t.1, t.2.1) ?_
    exact List.mem_flatMap.mpr ⟨r, hr, List.mem_flatMap.mpr
      ⟨m, hm, (mem_describePairs m (t.1, t.2.1)).mpr ⟨t.2.2, ht⟩⟩⟩
  have hkeys : ∀ k ∈ ((rs.flatMap fun r => r.2.flatMap describePairs).foldl addPair
      NewExporter).desc.map Prod.fst,
      ∃ r ∈ rs, ∃ m ∈ r.2, ∃ t ∈ collectTriples m, k = BuildFQName namespace_ t.1 t.2.1 := by
    intro k hk
    rcases (mem_keys_foldl_addPair _ NewExporter k).mp hk with h0 | ⟨p, hp, rfl⟩
    · simp [NewExporter] at h0
    · obtain ⟨r, hr, hp'⟩ := List.mem_flatMap.mp hp
      obtain ⟨m, hm, hp''⟩ := List.mem_flatMap.mp hp'
      obtain ⟨v, hv⟩ := (mem_describePairs m p).mp hp''
      exact ⟨r, hr, m, hm, (p.1, p.2, v), hv, rfl⟩
  have hnames : ∀ r ∈ rs, ∀ m ∈ r.2, ∀ t ∈ collectTriples m,
      (descriptorNames ((rs.flatMap fun r => r.2.flatMap describePairs).foldl addPair
        NewExporter)).count (ToLower (BuildFQName namespace_ t.1 t.2.1)) = 1 := by
    intro r hr m hm t ht
    rw [descriptorNames_eq_of_canonical _ (canonical_foldl_addPair _ _ good_NewExporter.2)]
    refine List.count_eq_one_of_mem ?_ ?_
    · refine List.Nodup.map_on ?_ (wellFormed_foldl_addPair _ _ good_NewExporter.1)
      intro k1 hk1 k2 hk2 heq
      obtain ⟨r1, hr1, m1, hm1, t1, ht1, rfl⟩ := hkeys k1 hk1
      obtain ⟨r2, hr2, m2, hm2, t2, ht2, rfl⟩ := hkeys k2 hk2
      exact hcase r1 hr1 m1 hm1 t1 ht1 r2 hr2 m2 hm2 t2 ht2 heq
    · exact List.mem_map.mpr ⟨_, List.mem_map.mpr
        ⟨_, mem_of_lookup_eq_some (hreg r hr m hm t ht).2, rfl⟩, rfl⟩
  rw [hD]
  refine ⟨rfl, fun r hr m hm t ht => ⟨hnames r hr m hm t ht, hreg r hr m hm t ht⟩, ?_,
    by decide, by decide⟩
  have hC := collectRegions_done rs
    ((rs.flatMap fun r => r.2.flatMap describePairs).foldl addPair NewExporter) [] hid
    (fun r hr m hm t ht => ⟨(hreg r hr m hm t ht).2, hvalid r hr m hm t ht⟩)
  simpa [Outcome.state] using hC

theorem twoRegions_leaves : ∀ r ∈ twoRegions, ∀ m ∈ r.2, ∀ t ∈ collectTriples m,
    t.1 = "" ∧ t.2.1 = "freeStorage" := by
  intro r hr m hm t ht
  simp only [twoRegions, List.mem_cons, List.mem_singleton, List.not_mem_nil, or_false] at hr
  rcases hr with rfl | rfl
  · simp only [List.mem_singleton] at hm
    subst hm
    have h : collectTriples [("instanceID", JVal.str "db-1"),
        ("freeStorage", JVal.num ⟨0x4045000000000000⟩)] =
        [("", "freeStorage", ⟨0x4045000000000000⟩)] := by decide
    rw [h, List.mem_singleton] at ht
    subst ht
    exact ⟨rfl, rfl⟩
  · simp only [List.mem_singleton] at hm
    subst hm
    have h : collectTriples [("instanceID", JVal.str "db-2"),
        ("freeStorage", JVal.num ⟨0x401c000000000000⟩)] =
        [("", "freeStorage", ⟨0x401c000000000000⟩)] := by decide
    rw [h, List.mem_singleton] at ht
    subst ht
    exact ⟨rfl, rfl⟩

/-- C7 (amended) at `twoRegions`. -/
theorem discovery_then_collection_witness :
    (∀ r ∈ twoRegions, ∀ m ∈ r.2, ∃ iid, m.lookup "instanceID" = some (JVal.str iid)) ∧
    (∀ r ∈ twoRegions, ∀ m ∈ r.2, ∀ t ∈ collectTriples m,
      IsValidMetricName (ToLower (BuildFQName namespace_ t.1 t.2.1)) = true) ∧
    (Describe ⟨NewExporter, []⟩ (twoRegions.map regionOfSnapshots)).failure = none ∧
    Collect ⟨(Describe ⟨NewExporter, []⟩ (twoRegions.map regionOfSnapshots)).state.e, []⟩
        (twoRegions.map regionOfSnapshots) =
      Outcome.done ⟨(Describe ⟨NewExporter, []⟩ (twoRegions.map regionOfSnapshots)).state.e,
        twoRegions.flatMap regionSamples⟩ :=
  have hid : ∀ r ∈ twoRegions, ∀ m ∈ r.2, ∃ iid, m.lookup "instanceID" = some (JVal.str iid) := by
    intro r hr m hm
    simp only [twoRegions, List.mem_cons, List.mem_singleton, List.not_mem_nil, or_false] at hr
    rcases hr with rfl | rfl
    · simp only [List.mem_singleton] at hm
      subst hm
      exact ⟨"db-1", rfl⟩
    · simp only [List.mem_singleton] at hm
      subst hm
      exact ⟨"db-2", rfl⟩
  have hvalid : ∀ r ∈ twoRegions, ∀ m ∈ r.2, ∀ t ∈ collectTriples m,
      IsValidMetricName (ToLower (BuildFQName namespace_ t.1 t.2.1)) = true := by
    intro r hr m hm t ht
    obtain ⟨h1, h2⟩ := twoRegions_leaves r hr m hm t ht
    rw [h1, h2]
    decide
  have hcase : ∀ r ∈ twoRegions, ∀ m ∈ r.2, ∀ t ∈ collectTriples m,
      ∀ r' ∈ twoRegions, ∀ m' ∈ r'.2, ∀ t' ∈ collectTriples m',
        ToLower (BuildFQName namespace_ t.1 t.2.1) =
            ToLower (BuildFQName namespace_ t'.1 t'.2.1) →
          BuildFQName namespace_ t.1 t.2.1 = BuildFQName namespace_ t'.1 t'.2.1 := by
    intro r hr m hm t ht r' hr' m' hm' t' ht' _
    obtain ⟨h1, h2⟩ := twoRegions_leaves r hr m hm t ht
    obtain ⟨h3, h4⟩ := twoRegions_leaves r' hr' m' hm' t' ht'
    rw [h1, h2, h3, h4]
  ⟨hid, hvalid, (discovery_then_collection twoRegions hid hvalid hcase).1,
    (discovery_then_collection twoRegions hid hvalid hcase).2.2.1⟩

/-- C9: for a top-level key `k` holding an array, an object at position `i` of
the whole array and a number under its key `k2`, both walks pass on subsystem
`k` and the leaf name made of the decimal rendering of `i`, `_` and `k2`: the
handlers of the two walks call `updateMetric` and `addDesc` with that name, the
walks over the whole object make the calls of `collectTriples` and
`describePairs`, the leaf is among them, after the walk of `Describe` its key
is in the registry, and every leaf the walk of `Collect` passes on for the
array is named so; the rendering of an index below `10 ^ e` has at most `e`
characters. In `snapshotDisks` the object after a number and a string gives
`2_util`: `Describe` registers `rdsosmetrics_disks_2_util` and `Collect` sends
its sample. -/
theorem array_index_naming (m : List (String × JVal)) (k : String) (xs : List JVal)
    (i : Nat) (inner : List (String × JVal)) (k2 : String) (v : Float64)
    (regionID instanceID : String) (s : St Metric) (e : Exporter)
    (hk : (k, JVal.arr xs) ∈ m) (hi : xs[i]? = some (JVal.obj inner))
    (hv : (k2, JVal.num v) ∈ inner) :
    collectElementInner regionID instanceID k i s (k2, JVal.num v) =
      updateMetric s regionID instanceID k (Itoa i ++ "_" ++ k2) v ∧
    describeElementInner k i e (k2, JVal.num v) = addDesc e k (Itoa i ++ "_" ++ k2) ∧
    forEach (collectEntry regionID instanceID) m s =
      forEach (updateTriple regionID instanceID) (collectTriples m) s ∧
    m.foldl describeEntry e = (describePairs m).foldl addPair e ∧
    (∃ d, (m.foldl describeEntry e).desc.lookup
      (BuildFQName namespace_ k (Itoa i ++ "_" ++ k2)) = some d) ∧
    (k, Itoa i ++ "_" ++ k2, v) ∈ collectTriples m ∧
    (k, Itoa i ++ "_" ++ k2) ∈ describePairs m ∧
    (∀ t ∈ collectEntryTriples (k, JVal.arr xs), ∃ j inner' k2' v',
      xs[j]? = some (JVal.obj inner') ∧ (k2', JVal.num v') ∈ inner' ∧
        t = (k, Itoa j ++ "_" ++ k2', v')) ∧
    (∀ e, 0 < e → i < 10 ^ e → (Itoa i).length ≤ e) ∧
    collectTriples snapshotDisks = [("disks", "2_util", ⟨0x4031800000000000⟩)] ∧
    describePairs snapshotDisks = [("disks", "2_util")] ∧
    Itoa 0 = "0" ∧ Itoa 2 = "2" ∧ Itoa 10 = "10" ∧
    describeMessage ⟨NewExporter, []⟩ (JVal.obj snapshotDisks) =
      Outcome.done ⟨⟨[("rdsosmetrics_disks_2_util",
        NewDesc "rdsosmetrics_disks_2_util" helpText ["region", "instanceID"] [])]⟩, []⟩ ∧
    collectMessage "us-east-1"
        ⟨⟨[("rdsosmetrics_disks_2_util",
          NewDesc "rdsosmetrics_disks_2_util" helpText ["region", "instanceID"] [])]⟩, []⟩
        (JVal.obj snapshotDisks) =
      Outcome.done ⟨⟨[("rdsosmetrics_disks_2_util",
          NewDesc "rdsosmetrics_disks_2_util" helpText ["region", "instanceID"] [])]⟩,
        [{ desc := NewDesc "rdsosmetrics_disks_2_util" helpText ["region", "instanceID"] [],
           valType := ValueType.UntypedValue, val := ⟨0x4031800000000000⟩,
           labelValues := ["us-east-1", "db-1"] }]⟩ := by
  have ht : (k, Itoa i ++ "_" ++ k2, v) ∈ collectTriples m :=
    (mem_collectTriples m _).mpr (Or.inr (Or.inr ⟨k, xs, i, inner, k2, v, hk, hi, hv, rfl⟩))
  have hp : (k, Itoa i ++ "_" ++ k2) ∈ describePairs m := (mem_describePairs m _).mpr ⟨v, ht⟩
  refine ⟨rfl, rfl, collectWalk_eq regionID instanceID m s, describeWalk_eq m e, ?_, ht, hp, ?_,
    fun e he hlt => Nat.repr_length i e he hlt,
    by decide, by decide, by decide, by decide, by decide, by decide, by decide⟩
  · rw [describeWalk_eq]
    exact lookup_foldl_addPair_of_mem (describePairs m) e (k, Itoa i ++ "_" ++ k2) hp
  · intro t hmem
    rcases (mem_collectEntryTriples _ t).mp hmem with ⟨v', hv', _⟩ | ⟨inner', k2', v', hv', _⟩ |
      ⟨ys, j, inner', k2', v', hys, hget, hin, heq⟩
    · exact JVal.noConfusion hv'
    · exact JVal.noConfusion hv'
    · simp only [JVal.arr.injEq] at hys
      subst hys
      exact ⟨j, inner', k2', v', hget, hin, heq⟩

/-- C9 at `snapshotDisks`: the key `disks`, position 2, inner key `util`. -/
theorem array_index_naming_witness :
    (("disks", JVal.arr [JVal.num ⟨0x3ff0000000000000⟩, JVal.str "x",
        JVal.obj [("util", JVal.num ⟨0x4031800000000000⟩)]]) ∈ snapshotDisks) ∧
    ("disks", "2_util", (⟨0x4031800000000000⟩ : Float64)) ∈ collectTriples snapshotDisks ∧
    ("disks", "2_util") ∈ describePairs snapshotDisks ∧
    forEach (collectEntry "us-east-1" "db-1") snapshotDisks ⟨NewExporter, []⟩ =
      forEach (updateTriple "us-east-1" "db-1") (collectTriples snapshotDisks)
        ⟨NewExporter, []⟩ ∧
    (∃ d, (snapshotDisks.foldl describeEntry NewExporter).desc.lookup
      (BuildFQName namespace_ "disks" "2_util") = some d) :=
  have hk : ("disks", JVal.arr [JVal.num ⟨0x3ff0000000000000⟩, JVal.str "x",
      JVal.obj [("util", JVal.num ⟨0x4031800000000000⟩)]]) ∈ snapshotDisks := by
    simp [snapshotDisks]
  ⟨hk,
    (array_index_naming snapshotDisks "disks" _ 2 [("util", JVal.num ⟨0x4031800000000000⟩)]
      "util" ⟨0x4031800000000000⟩ "us-east-1" "db-1" ⟨NewExporter, []⟩ NewExporter hk rfl
      (List.mem_singleton.mpr rfl)).2.2.2.2.2.1,
    (array_index_naming snapshotDisks "disks" _ 2 [("util", JVal.num ⟨0x4031800000000000⟩)]
      "util" ⟨0x4031800000000000⟩ "us-east-1" "db-1" ⟨NewExporter, []⟩ NewExporter hk rfl
      (List.mem_singleton.mpr rfl)).2.2.2.2.2.2.1,
    (array_index_naming snapshotDisks "disks" _ 2 [("util", JVal.num ⟨0x4031800000000000⟩)]
      "util" ⟨0x4031800000000000⟩ "us-east-1" "db-1" ⟨NewExporter, []⟩ NewExporter hk rfl
      (List.mem_singleton.mpr rfl)).2.2.1,
    (array_index_naming snapshotDisks "disks" _ 2 [("util", JVal.num ⟨0x4031800000000000⟩)]
      "util" ⟨0x4031800000000000⟩ "us-east-1" "db-1" ⟨NewExporter, []⟩ NewExporter hk rfl
      (List.mem_singleton.mpr rfl)).2.2.2.2.1⟩

/-- An element on which the body does nothing can be left out of the loop. -/
theorem forEach_skip {α σ : Type} (body : σ → α → Outcome σ) (a : α)
    (h : ∀ s, body s a = Outcome.done s) (pre post : List α) (s : σ) :
    forEach body (pre ++ a :: post) s = forEach body (pre ++ post) s := by
  rw [forEach_append, forEach_append]
  cases forEach body pre s with
  | done s' => simp only [forEach, h]
  | failed f s' => rfl

/-- An element can be replaced by one on which the body does the same. -/
theorem forEach_replace {α σ : Type} (body : σ → α → Outcome σ) (a b : α)
    (h : ∀ s, body s a = body s b) (pre post : List α) (s : σ) :
    forEach body (pre ++ a :: post) s = forEach body (pre ++ b :: post) s := by
  rw [forEach_append, forEach_append]
  cases forEach body pre s with
  | done s' => simp only [forEach, h]
  | failed f s' => rfl

theorem describeRegion_skip_stream (ID : String) (pre post : List LogEvents) (a : LogEvents)
    (h : ∀ s, describeLogStream s a = Outcome.done s) (s : St Desc) :
    describeRegion s ⟨ID, some (pre ++ a :: post)⟩ =
      describeRegion s ⟨ID, some (pre ++ post)⟩ := by
  simp only [describeRegion]
  exact forEach_skip describeLogStream a h pre post s

theorem collectRegion_skip_stream (ID : String) (pre post : List LogEvents) (a : LogEvents)
    (h : ∀ s, collectLogStream ID s a = Outcome.done s) (s : St Metric) :
    collectRegion s ⟨ID, some (pre ++ a :: post)⟩ =
      collectRegion s ⟨ID, some (pre ++ post)⟩ := by
  simp only [collectRegion]
  exact forEach_skip (collectLogStream ID) a h pre post s

/-! ## Claims on skipping and on failing -/

/-- C11 (the code at the failing input): a stream whose fetch gives no event
stops both loops over the streams with an index out of range, in the state
reached so far. For `regionEmptyStream` both passes fail, while without the
empty stream `Describe` registers the four leaves of `snapshotDb1` and
`Collect` sends their four samples. -/
theorem empty_events_stop_the_pass (regionID : String) (sd : St Desc) (sc : St Metric)
    (rest : List LogEvents) :
    forEach describeLogStream (LogEvents.events [] :: rest) sd =
      Outcome.failed Failure.indexOutOfRange sd ∧
    forEach (collectLogStream regionID) (LogEvents.events [] :: rest) sc =
      Outcome.failed Failure.indexOutOfRange sc ∧
    Describe ⟨NewExporter, []⟩ [regionEmptyStream] =
      Outcome.failed Failure.indexOutOfRange ⟨NewExporter, []⟩ ∧
    (Describe ⟨NewExporter, []⟩ [regionOf "us-east-1" snapshotDb1]).failure = none ∧
    (Describe ⟨NewExporter, []⟩ [regionOf "us-east-1" snapshotDb1]).state.ch.length = 4 ∧
    Collect ⟨(Describe ⟨NewExporter, []⟩ [regionOf "us-east-1" snapshotDb1]).state.e, []⟩
      [regionEmptyStream] =
      Outcome.failed Failure.indexOutOfRange
        ⟨(Describe ⟨NewExporter, []⟩ [regionOf "us-east-1" snapshotDb1]).state.e, []⟩ ∧
    (Collect ⟨(Describe ⟨NewExporter, []⟩ [regionOf "us-east-1" snapshotDb1]).state.e, []⟩
      [regionOf "us-east-1" snapshotDb1]).failure = none ∧
    (Collect ⟨(Describe ⟨NewExporter, []⟩ [regionOf "us-east-1" snapshotDb1]).state.e, []⟩
      [regionOf "us-east-1" snapshotDb1]).state.ch.length = 4 := by
  refine ⟨rfl, rfl, by decide, by decide, by decide, by decide, by decide, by decide⟩

/-- C12: a stream whose latest message is not JSON is skipped by both passes:
its turn of the loop changes nothing and does not fail, and `Describe` and
`Collect` give, for any regions around it and any streams before and after it,
the outcome they give with that stream removed. -/
theorem malformed_snapshot_skipped (sd : St Desc) (sc : St Metric) (ID : String)
    (before after : List Region) (pre post : List LogEvents) (es : List (Option JVal)) :
    describeLogStream sd (LogEvents.events (none :: es)) = Outcome.done sd ∧
    collectLogStream ID sc (LogEvents.events (none :: es)) = Outcome.done sc ∧
    Describe sd (before ++ ⟨ID, some (pre ++ LogEvents.events (none :: es) :: post)⟩ :: after) =
      Describe sd (before ++ ⟨ID, some (pre ++ post)⟩ :: after) ∧
    Collect sc (before ++ ⟨ID, some (pre ++ LogEvents.events (none :: es) :: post)⟩ :: after) =
      Collect sc (before ++ ⟨ID, some (pre ++ post)⟩ :: after) := by
  refine ⟨rfl, rfl, ?_, ?_⟩
  · simp only [Describe]
    rw [forEach_replace describeRegion
      ⟨ID, some (pre ++ LogEvents.events (none :: es) :: post)⟩ ⟨ID, some (pre ++ post)⟩
      (fun s => describeRegion_skip_stream ID pre post (LogEvents.events (none :: es))
        (fun _ => rfl) s) before after sd]
  · simp only [Collect]
    exact forEach_replace collectRegion
      ⟨ID, some (pre ++ LogEvents.events (none :: es) :: post)⟩ ⟨ID, some (pre ++ post)⟩
      (fun s => collectRegion_skip_stream ID pre post (LogEvents.events (none :: es))
        (fun _ => rfl) s) before after sc

/-- C13: a region whose stream listing fails is skipped by both passes: its
turn of the loop changes nothing (no descriptor, no sample) and does not fail,
and `Describe` and `Collect` give, for any regions before and after it, the
outcome they give with that region removed. -/
theorem unsupported_region_skipped (sd : St Desc) (sc : St Metric) (ID : String)
    (before after : List Region) :
    describeRegion sd ⟨ID, none⟩ = Outcome.done sd ∧
    collectRegion sc ⟨ID, none⟩ = Outcome.done sc ∧
    Describe sd (before ++ ⟨ID, none⟩ :: after) = Describe sd (before ++ after) ∧
    Collect sc (before ++ ⟨ID, none⟩ :: after) = Collect sc (before ++ after) := by
  refine ⟨rfl, rfl, ?_, ?_⟩
  · simp only [Describe]
    rw [forEach_skip describeRegion ⟨ID, none⟩ (fun _ => rfl) before after sd]
  · simp only [Collect]
    exact forEach_skip collectRegion ⟨ID, none⟩ (fun _ => rfl) before after sc

/-- C16: a decoded message of the wrong shape is not skipped. The handling of
`Collect` fails with a type assertion when the root is not an object, and when
the root is an object without a string under `instanceID`; it fails in the
state it started in, so no sample of the message is sent, and as the latest
event of a stream it stops the loop over the streams. The handling of
`Describe` fails exactly when the root is not an object, and runs to its end
on every object, with or without `instanceID`. -/
theorem wrong_shape_fails (regionID : String) (sc : St Metric) (sd : St Desc)
    (message : JVal) :
    ((∀ m, message ≠ JVal.obj m) →
      collectMessage regionID sc message = Outcome.failed Failure.typeAssertion sc) ∧
    (∀ m, message = JVal.obj m → (¬ ∃ iid, m.lookup "instanceID" = some (JVal.str iid)) →
      collectMessage regionID sc message = Outcome.failed Failure.typeAssertion sc) ∧
    (∀ es rest, collectMessage regionID sc message = Outcome.failed Failure.typeAssertion sc →
      forEach (collectLogStream regionID) (LogEvents.events (some message :: es) :: rest) sc =
        Outcome.failed Failure.typeAssertion sc) ∧
    ((describeMessage sd message).failure ≠ none ↔ ∀ m, message ≠ JVal.obj m) ∧
    ((∀ m, message ≠ JVal.obj m) →
      describeMessage sd message = Outcome.failed Failure.typeAssertion sd) ∧
    (∀ m, message = JVal.obj m →
      describeMessage sd message =
        Outcome.done ⟨(describePairs m).foldl addPair sd.e, sd.ch⟩) := by
  refine ⟨?_, ?_, ?_, ?_, ?_, ?_⟩
  · intro h
    cases message with
    | obj m => exact absurd rfl (h m)
    | _ => rfl
  · intro m hm hid
    subst hm
    simp only [collectMessage]
    split
    · rename_i iid hl
      exact absurd ⟨iid, hl⟩ hid
    · rfl
  · intro es rest h
    simp only [forEach, collectLogStream, h]
  · cases message with
    | obj m =>
      simp only [describeMessage, Outcome.failure, ne_eq, not_true_eq_false, false_iff,
        not_forall, not_not]
      exact ⟨m, rfl⟩
    | _ => simp [describeMessage, Outcome.failure]
  · intro h
    cases message with
    | obj m => exact absurd rfl (h m)
    | _ => rfl
  · intro m hm
    subst hm
    simp only [describeMessage, describeWalk_eq]

/-! ## A whole discovery pass over readable streams -/

/-- A loop whose body never fails is a fold. -/
theorem forEach_done_foldl {α σ : Type} (body : σ → α → Outcome σ) (step : σ → α → σ)
    (xs : List α) (h : ∀ a ∈ xs, ∀ s, body s a = Outcome.done (step s a)) (s : σ) :
    forEach body xs s = Outcome.done (xs.foldl step s) := by
  induction xs generalizing s with
  | nil => rfl
  | cons a rest ih =>
    simp only [forEach, h a (List.mem_cons_self a rest) s, List.foldl_cons]
    exact ih (fun x hx => h x (List.mem_cons_of_mem a hx)) _

theorem foldl_state_flatMap {α χ : Type} (g : α → List (String × String)) (xs : List α)
    (s : St χ) :
    xs.foldl (fun (s : St χ) a => ⟨(g a).foldl addPair s.e, s.ch⟩) s =
      ⟨(xs.flatMap g).foldl addPair s.e, s.ch⟩ := by
  induction xs generalizing s with
  | nil => rfl
  | cons a rest ih =>
    simp only [List.foldl_cons, List.flatMap_cons, List.foldl_append]
    rw [ih]

theorem describeLogStream_readable (s : St Desc) (out : LogEvents) (h : ReadableStream out) :
    describeLogStream s out = Outcome.done ⟨(streamPairs out).foldl addPair s.e, s.ch⟩ := by
  cases out with
  | err => exact False.elim h
  | events es =>
    cases es with
    | nil => exact False.elim h
    | cons head tl =>
      cases head with
      | none => rfl
      | some message =>
        cases message with
        | obj m => simp only [describeLogStream, describeMessage, streamPairs, describeWalk_eq]
        | _ => exact False.elim h

theorem describeRegion_readable (s : St Desc) (region : Region) (h : ReadableRegion region) :
    describeRegion s region = Outcome.done ⟨(regionPairs region).foldl addPair s.e, s.ch⟩ := by
  obtain ⟨ID, ls⟩ := region
  cases ls with
  | none => rfl
  | some streams =>
    simp only [describeRegion, regionPairs]
    rw [forEach_done_foldl describeLogStream
      (fun (s : St Desc) out => ⟨(streamPairs out).foldl addPair s.e, s.ch⟩) streams
      (fun out hout s => describeLogStream_readable s out (h out hout)) s]
    rw [foldl_state_flatMap]

theorem describeRegions_readable (s : St Desc) (regions : List Region) (h : Readable regions) :
    forEach describeRegion regions s =
      Outcome.done ⟨(walkedPairs regions).foldl addPair s.e, s.ch⟩ := by
  rw [forEach_done_foldl describeRegion
    (fun (s : St Desc) region => ⟨(regionPairs region).foldl addPair s.e, s.ch⟩) regions
    (fun region hr s => describeRegion_readable s region (h region hr)) s]
  rw [foldl_state_flatMap]
  rfl

theorem Describe_readable (s : St Desc) (regions : List Region) (h : Readable regions) :
    Describe s regions =
      Outcome.done ⟨(walkedPairs regions).foldl addPair s.e,
        s.ch ++ ((walkedPairs regions).foldl addPair s.e).desc.map Prod.snd⟩ := by
  simp only [Describe, describeRegions_readable s regions h]

theorem readable_threeRegions : Readable threeRegions := by
  intro region hr
  simp only [threeRegions, List.mem_cons, List.mem_singleton, List.not_mem_nil, or_false] at hr
  rcases hr with rfl | rfl | rfl
  · intro out hout
    simp only [List.mem_singleton] at hout
    subst hout
    exact True.intro
  · exact True.intro
  · intro out hout
    simp only [List.mem_cons, List.mem_singleton, List.not_mem_nil, or_false] at hout
    rcases hout with rfl | rfl
    · exact True.intro
    · exact True.intro

theorem descFor_injOn_of_lower (k1 k2 : String) (h : descFor k1 = descFor k2) :
    ToLower k1 = ToLower k2 := by
  have h' := congrArg Desc.fqName h
  simpa [descFor_fqName] using h'

theorem map_snd_eq_of_canonical (e : Exporter) (h : Canonical e) :
    e.desc.map Prod.snd = (e.desc.map Prod.fst).map descFor := by
  rw [List.map_map]
  apply List.map_congr_left
  intro kd hkd
  exact h kd.1 kd.2 hkd

/-- C14 (counterexample): for the snapshot `snapshotCase`, with the leaves `A`
and `a`, `Describe` sends the descriptor named `rdsosmetrics_a` twice, while
the two leaves have one identity. For `regionArrayRoot` the pass is stopped by
the second stream after the first put four entries in the registry, and
nothing is sent. -/
theorem descriptor_surfaced_twice :
    Describe ⟨NewExporter, []⟩ [regionOf "us-east-1" snapshotCase] =
      Outcome.done
        ⟨⟨[("rdsosmetrics_a", NewDesc "rdsosmetrics_a" helpText ["region", "instanceID"] []),
           ("rdsosmetrics_A", NewDesc "rdsosmetrics_a" helpText ["region", "instanceID"] [])]⟩,
         [NewDesc "rdsosmetrics_a" helpText ["region", "instanceID"] [],
          NewDesc "rdsosmetrics_a" helpText ["region", "instanceID"] []]⟩ ∧
    ((walkedPairs [regionOf "us-east-1" snapshotCase]).map
      fun p => specIdentity p.1 p.2).dedup = ["rdsosmetrics_a"] ∧
    (Describe ⟨NewExporter, []⟩ [regionArrayRoot]).failure = some Failure.typeAssertion ∧
    (Describe ⟨NewExporter, []⟩ [regionArrayRoot]).state.e.desc.length = 4 ∧
    (Describe ⟨NewExporter, []⟩ [regionArrayRoot]).state.ch = [] := by
  decide

/-- C14 (amended): a discovery pass on a fresh exporter over readable streams
(each stream has a latest event, not JSON or a snapshot object; listings may
fail) runs to its end and sends exactly the descriptors of the registry, one
send per entry in the order of the entries. No key occurs twice among the
entries, the keys are the fully qualified names of the leaves walked, so the
number of sends is the number of distinct fully qualified names among all
leaves walked, however many leaves, streams or regions gave the same name; each
descriptor sent is the one `addDesc` stores under its key. When no two leaves
walked have different fully qualified names with the same lower-casing, no
descriptor is sent twice, no identity is carried by two of them, and the number
of sends is the number of distinct identities among the leaves walked. For
`threeRegions`, two regions and three leaves give two sends. -/
theorem each_descriptor_surfaced_once (regions : List Region) (h : Readable regions) :
    (Describe ⟨NewExporter, []⟩ regions).failure = none ∧
    (Describe ⟨NewExporter, []⟩ regions).state.ch =
      (Describe ⟨NewExporter, []⟩ regions).state.e.desc.map Prod.snd ∧
    ((Describe ⟨NewExporter, []⟩ regions).state.e.desc.map Prod.fst).Nodup ∧
    (∀ k, k ∈ (Describe ⟨NewExporter, []⟩ regions).state.e.desc.map Prod.fst ↔
      ∃ p ∈ walkedPairs regions, k = BuildFQName namespace_ p.1 p.2) ∧
    (Describe ⟨NewExporter, []⟩ regions).state.ch.length =
      (((walkedPairs regions).map fun p => BuildFQName namespace_ p.1 p.2).dedup).length ∧
    (∀ k d, (k, d) ∈ (Describe ⟨NewExporter, []⟩ regions).state.e.desc →
      d = NewDesc (ToLower k) helpText ["region", "instanceID"] []) ∧
    ((∀ p ∈ walkedPairs regions, ∀ q ∈ walkedPairs regions,
        ToLower (BuildFQName namespace_ p.1 p.2) = ToLower (BuildFQName namespace_ q.1 q.2) →
          BuildFQName namespace_ p.1 p.2 = BuildFQName namespace_ q.1 q.2) →
      (Describe ⟨NewExporter, []⟩ regions).state.ch.Nodup ∧
      ((Describe ⟨NewExporter, []⟩ regions).state.ch.map Desc.fqName).Nodup ∧
      (Describe ⟨NewExporter, []⟩ regions).state.ch.length =
        (((walkedPairs regions).map fun p =>
          ToLower (BuildFQName namespace_ p.1 p.2)).dedup).length) ∧
    walkedPairs threeRegions = [("", "freeStorage"), ("", "freeStorage"), ("cpu", "user")] ∧
    (Describe ⟨NewExporter, []⟩ threeRegions).state.ch =
      [NewDesc "rdsosmetrics_cpu_user" helpText ["region", "instanceID"] [],
       NewDesc "rdsosmetrics_freestorage" helpText ["region", "instanceID"] []] := by
  rw [Describe_readable ⟨NewExporter, []⟩ regions h]
  simp only [Outcome.failure, Outcome.state, List.nil_append, List.length_map]
  have hwf := wellFormed_foldl_addPair (walkedPairs regions) NewExporter good_NewExporter.1
  have hcan := canonical_foldl_addPair (walkedPairs regions) NewExporter good_NewExporter.2
  have hkeys : ∀ k, k ∈ ((walkedPairs regions).foldl addPair NewExporter).desc.map Prod.fst ↔
      ∃ p ∈ walkedPairs regions, k = BuildFQName namespace_ p.1 p.2 := by
    intro k
    rw [mem_keys_foldl_addPair]
    simp [NewExporter]
  refine ⟨trivial, trivial, hwf, hkeys, length_foldl_addPair_fresh _, ?_, ?_,
    by decide, by decide⟩
  · intro k d hmem
    exact hcan k d hmem
  · intro hcase
    have hinj : ∀ k1 ∈ ((walkedPairs regions).foldl addPair NewExporter).desc.map Prod.fst,
        ∀ k2 ∈ ((walkedPairs regions).foldl addPair NewExporter).desc.map Prod.fst,
        ToLower k1 = ToLower k2 → k1 = k2 := by
      intro k1 hk1 k2 hk2 heq
      obtain ⟨p, hp, rfl⟩ := (hkeys k1).mp hk1
      obtain ⟨q, hq, rfl⟩ := (hkeys k2).mp hk2
      exact hcase p hp q hq heq
    have hlow : (((walkedPairs regions).foldl addPair NewExporter).desc.map Prod.fst).map
        ToLower |>.Nodup := List.Nodup.map_on hinj hwf
    refine ⟨?_, ?_, ?_⟩
    · rw [map_snd_eq_of_canonical _ hcan]
      exact List.Nodup.map_on
        (fun k1 hk1 k2 hk2 hd => hinj k1 hk1 k2 hk2 (descFor_injOn_of_lower k1 k2 hd)) hwf
    · rw [map_snd_eq_of_canonical _ hcan, List.map_map]
      exact hlow
    · have hperm : ((((walkedPairs regions).foldl addPair NewExporter).desc.map Prod.fst).map
          ToLower).Perm
          (((walkedPairs regions).map fun p =>
            ToLower (BuildFQName namespace_ p.1 p.2)).dedup) := by
        rw [List.perm_ext_iff_of_nodup hlow (List.nodup_dedup _)]
        intro x
        simp only [List.mem_map, List.mem_dedup]
        constructor
        · rintro ⟨k, hk, rfl⟩
          obtain ⟨p, hp, rfl⟩ := (hkeys k).mp (List.mem_map.mpr hk)
          exact ⟨p, hp, rfl⟩
        · rintro ⟨p, hp, rfl⟩
          exact ⟨_, List.mem_map.mp ((hkeys _).mpr ⟨p, hp, rfl⟩), rfl⟩
      have hlen := hperm.length_eq
      simpa using hlen

/-- C14 (amended) at `threeRegions`. -/
theorem each_descriptor_surfaced_once_witness :
    Readable threeRegions ∧
    (Describe ⟨NewExporter, []⟩ threeRegions).failure = none ∧
    (Describe ⟨NewExporter, []⟩ threeRegions).state.ch =
      (Describe ⟨NewExporter, []⟩ threeRegions).state.e.desc.map Prod.snd ∧
    (Describe ⟨NewExporter, []⟩ threeRegions).state.ch.length =
      (((walkedPairs threeRegions).map fun p => BuildFQName namespace_ p.1 p.2).dedup).length :=
  ⟨readable_threeRegions,
    (each_descriptor_surfaced_once threeRegions readable_threeRegions).1,
    (each_descriptor_surfaced_once threeRegions readable_threeRegions).2.1,
    (each_descriptor_surfaced_once threeRegions readable_threeRegions).2.2.2.2.1⟩

/-! ## Collection after discovery of the same snapshots -/

theorem forEach_failure_inv {α σ : Type} (P : σ → Prop) (body : σ → α → Outcome σ)
    (hP : ∀ s a, P s → P (body s a).state) (xs : List α) (s : σ) (hs : P s) (f : Failure)
    (h : (forEach body xs s).failure = some f) :
    ∃ x ∈ xs, ∃ s', P s' ∧ (body s' x).failure = some f := by
  induction xs generalizing s with
  | nil => simp [forEach, Outcome.failure] at h
  | cons a rest ih =>
    simp only [forEach] at h
    have hstep := hP s a hs
    cases hb : body s a with
    | done s' =>
      rw [hb] at h hstep
      obtain ⟨x, hx, s'', hs'', hf⟩ := ih s' hstep h
      exact ⟨x, List.mem_cons_of_mem a hx, s'', hs'', hf⟩
    | failed g s' =>
      rw [hb] at h
      exact ⟨a, List.mem_cons_self a rest, s, hs, by rw [hb]; exact h⟩

theorem mem_walkedPairs_of_snapshot (regions : List Region) (m : List (String × JVal))
    (hm : SnapshotOf regions m) (p : String × String) (hp : p ∈ describePairs m) :
    p ∈ walkedPairs regions := by
  obtain ⟨region, hr, streams, hs, es, hes⟩ := hm
  refine List.mem_flatMap.mpr ⟨region, hr, ?_⟩
  simp only [regionPairs, hs]
  exact List.mem_flatMap.mpr ⟨_, hes, hp⟩

/-- With the key present, `updateMetric` does not meet a nil descriptor. -/
theorem updateMetric_failure_of_lookup (s : St Metric) (region instanceID subsystem name : String)
    (value : Float64) (d : Desc)
    (h : s.e.desc.lookup (BuildFQName namespace_ subsystem name) = some d) :
    (updateMetric s region instanceID subsystem name value).failure ≠
      some Failure.nilDereference := by
  simp only [updateMetric, h, MustNewConstMetric]
  cases d.err with
  | some err => simp [Outcome.failure]
  | none =>
    by_cases hc : d.variableLabels.length = 2
    · simp [hc, Outcome.failure]
    · simp [hc, Outcome.failure]

/-- C15: for a snapshot with a string `instanceID`, the walk of `Describe`
is the calls of `addDesc` on `describePairs`, the walk of `Collect` is the calls
of `updateMetric` on `collectTriples`, and the pairs (subsystem, name) of the
first are those of the second, in the same order. Hence, after `Describe` has
run from any exporter over readable streams that hold the snapshot, the key of
every leaf that `Collect` meets in the snapshot is in the registry, and the
walk of `Collect` over the snapshot never stops on a nil descriptor; when the
exporter was fresh and the names are valid metric names, the walk runs to its
end and sends one sample per leaf. -/
theorem walks_agree (regions : List Region) (m : List (String × JVal)) (regionID : String)
    (e0 : Exporter) (chd : List Desc) (chm : List Metric) (hr : Readable regions)
    (hm : SnapshotOf regions m) (hid : ∃ iid, m.lookup "instanceID" = some (JVal.str iid)) :
    describeMessage ⟨e0, chd⟩ (JVal.obj m) =
      Outcome.done ⟨(describePairs m).foldl addPair e0, chd⟩ ∧
    (∀ s, collectMessage regionID s (JVal.obj m) =
      forEach (updateTriple regionID (instanceIDOf m)) (collectTriples m) s) ∧
    describePairs m = (collectTriples m).map (fun t => (t.1, t.2.1)) ∧
    (∀ p, p ∈ describePairs m ↔ ∃ v, (p.1, p.2, v) ∈ collectTriples m) ∧
    (Describe ⟨e0, chd⟩ regions).failure = none ∧
    (∀ t ∈ collectTriples m, ∃ d,
      (Describe ⟨e0, chd⟩ regions).state.e.desc.lookup (BuildFQName namespace_ t.1 t.2.1) =
        some d) ∧
    (collectMessage regionID ⟨(Describe ⟨e0, chd⟩ regions).state.e, chm⟩ (JVal.obj m)).failure ≠
      some Failure.nilDereference ∧
    (e0 = NewExporter →
      (∀ t ∈ collectTriples m,
        IsValidMetricName (ToLower (BuildFQName namespace_ t.1 t.2.1)) = true) →
      collectMessage regionID ⟨(Describe ⟨e0, chd⟩ regions).state.e, chm⟩ (JVal.obj m) =
        Outcome.done ⟨(Describe ⟨e0, chd⟩ regions).state.e,
          chm ++ snapshotSamples regionID m⟩) := by
  have hlook : ∀ t ∈ collectTriples m, ∃ d,
      (Describe ⟨e0, chd⟩ regions).state.e.desc.lookup (BuildFQName namespace_ t.1 t.2.1) =
        some d := by
    intro t ht
    rw [Describe_readable ⟨e0, chd⟩ regions hr]
    exact lookup_foldl_addPair_of_mem (walkedPairs regions) e0 (t.1, t.2.1)
      (mem_walkedPairs_of_snapshot regions m hm _
        ((mem_describePairs m (t.1, t.2.1)).mpr ⟨t.2.2, ht⟩))
  refine ⟨?_, fun s => collectMessage_of_instanceID regionID s m hid, describePairs_eq m,
    mem_describePairs m, ?_, hlook, ?_, ?_⟩
  · simp only [describeMessage, describeWalk_eq]
  · rw [Describe_readable ⟨e0, chd⟩ regions hr]
    rfl
  · rw [collectMessage_of_instanceID regionID _ m hid]
    intro hf
    obtain ⟨t, ht, s', hs', hfail⟩ := forEach_failure_inv
      (fun s : St Metric => s.e = (Describe ⟨e0, chd⟩ regions).state.e)
      (updateTriple regionID (instanceIDOf m))
      (fun s t hs => (updateMetric_state_e s regionID (instanceIDOf m) t.1 t.2.1 t.2.2).trans hs)
      (collectTriples m) ⟨(Describe ⟨e0, chd⟩ regions).state.e, chm⟩ rfl
      Failure.nilDereference hf
    obtain ⟨d, hd⟩ := hlook t ht
    rw [← hs'] at hd
    exact updateMetric_failure_of_lookup s' regionID (instanceIDOf m) t.1 t.2.1 t.2.2 d hd hfail
  · intro he0 hvalid
    subst he0
    rw [collectMessage_of_instanceID regionID _ m hid]
    have hcan := (good_Describe ⟨NewExporter, chd⟩ regions good_NewExporter).2
    rw [forEach_updateTriple_done regionID (instanceIDOf m) (collectTriples m) _ chm]
    · rfl
    · intro t ht
      obtain ⟨d, hd⟩ := hlook t ht
      have hdd := hcan _ d (mem_of_lookup_eq_some hd)
      subst hdd
      exact ⟨hd, hvalid t ht⟩

/-- C15 at `snapshotDb1`, described and collected in one region. -/
theorem walks_agree_witness :
    Readable [regionOf "us-east-1" snapshotDb1] ∧
    SnapshotOf [regionOf "us-east-1" snapshotDb1] snapshotDb1 ∧
    (∃ iid, snapshotDb1.lookup "instanceID" = some (JVal.str iid)) ∧
    describePairs snapshotDb1 = (collectTriples snapshotDb1).map (fun t => (t.1, t.2.1)) ∧
    (∀ s, collectMessage "us-east-1" s (JVal.obj snapshotDb1) =
      forEach (updateTriple "us-east-1" (instanceIDOf snapshotDb1))
        (collectTriples snapshotDb1) s) ∧
    (collectMessage "us-east-1"
      ⟨(Describe ⟨NewExporter, []⟩ [regionOf "us-east-1" snapshotDb1]).state.e, []⟩
      (JVal.obj snapshotDb1)).failure ≠ some Failure.nilDereference ∧
    (collectMessage "us-east-1"
      ⟨(Describe ⟨NewExporter, []⟩ [regionOf "us-east-1" snapshotDb1]).state.e, []⟩
      (JVal.obj snapshotDb1)).state.ch.length = 4 :=
  have hr : Readable [regionOf "us-east-1" snapshotDb1] := by
    intro region hreg
    simp only [List.mem_singleton] at hreg
    subst hreg
    intro out hout
    simp only [List.mem_singleton] at hout
    subst hout
    exact True.intro
  have hm : SnapshotOf [regionOf "us-east-1" snapshotDb1] snapshotDb1 :=
    ⟨regionOf "us-east-1" snapshotDb1, List.mem_singleton.mpr rfl, _, rfl, [],
      List.mem_singleton.mpr rfl⟩
  ⟨hr, hm, ⟨"db-1", rfl⟩,
    (walks_agree [regionOf "us-east-1" snapshotDb1] snapshotDb1 "us-east-1" NewExporter [] []
      hr hm ⟨"db-1", rfl⟩).2.2.1,
    (walks_agree [regionOf "us-east-1" snapshotDb1] snapshotDb1 "us-east-1" NewExporter [] []
      hr hm ⟨"db-1", rfl⟩).2.1,
    (walks_agree [regionOf "us-east-1" snapshotDb1] snapshotDb1 "us-east-1" NewExporter [] []
      hr hm ⟨"db-1", rfl⟩).2.2.2.2.2.2.1,
    by decide⟩

end RdsOsMetrics
